import Mathlib

/-!
Verification of the PlanMyDay backend (src/backend/src/index.ts).

The development shallowly embeds the pieces of the backend the claims are
about: the response-repair engine `parseAIResponse` (source lines 547-654),
the prompt builder `buildPrompt` (lines 501-544) and the plan-generation
handler `generatePlan` (lines 199-324).  JavaScript strings are modelled as
`List Char` internally (wrapped in `String` at the interfaces); `JSON.parse`
is modelled by an executable recursive-descent parser `jsonParse`;
the regular-expression operations of the source are modelled by explicit
list functions, each annotated with the regex it embeds.

Modelling notes, applying throughout:
* Whitespace: the source mixes JavaScript `trim()` / regex `\s` (which strip
  a slightly larger set of Unicode spaces) with JSON whitespace.  Both are
  modelled as the common core set space, tab, newline, carriage return.
* JSON numbers are kept as their literal source token (`Json.num lit`)
  rather than IEEE-754 doubles; no claim depends on numeric values.
* JS objects are modelled as field lists in document order; property access
  takes the last binding of a key, matching JSON.parse overwrite semantics.
-/

set_option maxRecDepth 10000

namespace PlanMyDay

/-- JSON values as produced by JSON.parse.  Numbers are kept as their
literal token text; object fields are kept in document order. -/
inductive Json where
  | null : Json
  | bool (b : Bool) : Json
  | num (lit : String) : Json
  | str (s : String) : Json
  | arr (items : List Json) : Json
  | obj (fields : List (String × Json)) : Json

/-- The four whitespace characters of JSON, also used to model `trim()`
and regex `\s` (see the modelling notes above). -/
def isWsChar (c : Char) : Bool := c = ' ' || c = '\t' || c = '\n' || c = '\r'

/-- Drop leading whitespace (one side of JavaScript `trim()`). -/
def dropLeadWsL (cs : List Char) : List Char := cs.dropWhile isWsChar

/-- Drop trailing whitespace (the other side of `trim()`). -/
def dropTrailWsL (cs : List Char) : List Char := (dropLeadWsL cs.reverse).reverse

/-- JavaScript `String.prototype.trim`. -/
def jsTrimL (cs : List Char) : List Char := dropTrailWsL (dropLeadWsL cs)

/-- `needle.isPrefixOf hay` spelled out, so that all substring reasoning in
this file is self-contained. -/
def leadsWith : List Char → List Char → Bool
  | [], _ => true
  | _ :: _, [] => false
  | n :: ns, h :: hs => n = h && leadsWith ns hs

/-- JavaScript `String.prototype.includes`: `needle` occurs contiguously in
the haystack. -/
def containsSub (needle : List Char) : List Char → Bool
  | [] => needle.isEmpty
  | c :: rest => leadsWith needle (c :: rest) || containsSub needle rest

/-- Value of a hexadecimal digit, used for JSON `\uXXXX` escapes. -/
def hexVal (c : Char) : Option Nat :=
  if '0' ≤ c ∧ c ≤ '9' then some (c.toNat - '0'.toNat)
  else if 'a' ≤ c ∧ c ≤ 'f' then some (c.toNat - 'a'.toNat + 10)
  else if 'A' ≤ c ∧ c ≤ 'F' then some (c.toNat - 'A'.toNat + 10)
  else none

/-- The single-character escapes of JSON strings. -/
def simpleEsc (c : Char) : Option Char :=
  if c = '"' then some '"'
  else if c = '\\' then some '\\'
  else if c = '/' then some '/'
  else if c = 'b' then some (Char.ofNat 8)
  else if c = 'f' then some (Char.ofNat 12)
  else if c = 'n' then some '\n'
  else if c = 'r' then some '\r'
  else if c = 't' then some '\t'
  else none

/-- Body of a JSON string, after the opening quote: the decoded characters
and the input remaining after the closing quote.  Raw control characters
are rejected as in JSON; `\uXXXX` escapes are decoded (surrogate halves
are rejected, a restriction of the model: Lean `Char` holds only scalar
values). -/
def parseStrChars : List Char → Option (List Char × List Char)
  | [] => none
  | '"' :: r => some ([], r)
  | '\\' :: 'u' :: h1 :: h2 :: h3 :: h4 :: r =>
    (match hexVal h1, hexVal h2, hexVal h3, hexVal h4 with
     | some x1, some x2, some x3, some x4 =>
       let n := ((x1 * 16 + x2) * 16 + x3) * 16 + x4
       if 0xD800 ≤ n ∧ n ≤ 0xDFFF then none
       else (parseStrChars r).map (fun p => (Char.ofNat n :: p.1, p.2))
     | _, _, _, _ => none)
  | '\\' :: e :: r =>
    (match simpleEsc e with
     | some c => (parseStrChars r).map (fun p => (c :: p.1, p.2))
     | none => none)
  | c :: r =>
    if c.toNat < 32 then none
    else (parseStrChars r).map (fun p => (c :: p.1, p.2))

/-- JSON string body returning a `String`. -/
def parseStrBody (cs : List Char) : Option (String × List Char) :=
  (parseStrChars cs).map fun p => (⟨p.1⟩, p.2)

/-- Split off a maximal run of decimal digits. -/
def digitsSplit (cs : List Char) : List Char × List Char :=
  (cs.takeWhile Char.isDigit, cs.dropWhile Char.isDigit)

/-- Exponent digits (with optional sign) of a JSON number. -/
def parseExpDigits (acc pre : List Char) (cs : List Char) : Option (Json × List Char) :=
  let sr : List Char × List Char :=
    match cs with
    | '+' :: r => (['+'], r)
    | '-' :: r => (['-'], r)
    | _ => ([], cs)
  let ds := digitsSplit sr.2
  if ds.1.isEmpty then none else some (.num ⟨acc ++ pre ++ sr.1 ++ ds.1⟩, ds.2)

/-- Optional exponent part of a JSON number. -/
def parseExpPart (acc : List Char) (cs : List Char) : Option (Json × List Char) :=
  match cs with
  | 'e' :: r => parseExpDigits acc ['e'] r
  | 'E' :: r => parseExpDigits acc ['E'] r
  | _ => some (.num ⟨acc⟩, cs)

/-- Optional fraction part of a JSON number. -/
def parseFracPart (acc : List Char) (cs : List Char) : Option (Json × List Char) :=
  match cs with
  | '.' :: r =>
    let ds := digitsSplit r
    if ds.1.isEmpty then none else parseExpPart (acc ++ '.' :: ds.1) ds.2
  | _ => parseExpPart acc cs

/-- Integer part of a JSON number after the optional minus sign
(`0` alone, or a nonzero digit followed by digits, as in the JSON grammar). -/
def parseNumAbs (neg : List Char) (cs : List Char) : Option (Json × List Char) :=
  match cs with
  | '0' :: r => parseFracPart (neg ++ ['0']) r
  | c :: r =>
    if c.isDigit then
      let ds := digitsSplit (c :: r)
      parseFracPart (neg ++ ds.1) ds.2
    else none
  | [] => none

/-- A JSON number token. -/
def parseNumber (cs : List Char) : Option (Json × List Char) :=
  match cs with
  | '-' :: r => parseNumAbs ['-'] r
  | _ => parseNumAbs [] cs

mutual

/-- One JSON value (fuel-indexed recursive descent; leading whitespace is
skipped, the remaining input is returned). -/
def parseVal : Nat → List Char → Option (Json × List Char)
  | 0, _ => none
  | f + 1, cs =>
    match dropLeadWsL cs with
    | 'n' :: 'u' :: 'l' :: 'l' :: r => some (.null, r)
    | 't' :: 'r' :: 'u' :: 'e' :: r => some (.bool true, r)
    | 'f' :: 'a' :: 'l' :: 's' :: 'e' :: r => some (.bool false, r)
    | '"' :: r =>
      (match parseStrBody r with
       | some (s, r1) => some (.str s, r1)
       | none => none)
    | '[' :: r =>
      (match dropLeadWsL r with
       | ']' :: r1 => some (.arr [], r1)
       | r1 =>
         match parseVal f r1 with
         | some (v, r2) => parseArrTail f [v] r2
         | none => none)
    | '{' :: r =>
      (match dropLeadWsL r with
       | '}' :: r1 => some (.obj [], r1)
       | r1 => parseObjFields f [] r1)
    | c :: r => if c = '-' || c.isDigit then parseNumber (c :: r) else none
    | [] => none

/-- Elements of a JSON array after the first one. -/
def parseArrTail : Nat → List Json → List Char → Option (Json × List Char)
  | 0, _, _ => none
  | f + 1, acc, cs =>
    match dropLeadWsL cs with
    | ',' :: r =>
      (match parseVal f r with
       | some (v, r2) => parseArrTail f (acc ++ [v]) r2
       | none => none)
    | ']' :: r => some (.arr acc, r)
    | _ => none

/-- Fields of a JSON object; the input must be positioned at a key
(whitespace already skipped). -/
def parseObjFields : Nat → List (String × Json) → List Char → Option (Json × List Char)
  | 0, _, _ => none
  | f + 1, acc, cs =>
    match cs with
    | '"' :: r =>
      (match parseStrBody r with
       | some (k, r1) =>
         (match dropLeadWsL r1 with
          | ':' :: r2 =>
            (match parseVal f r2 with
             | some (v, r3) =>
               (match dropLeadWsL r3 with
                | ',' :: r4 => parseObjFields f (acc ++ [(k, v)]) (dropLeadWsL r4)
                | '}' :: r4 => some (.obj (acc ++ [(k, v)]), r4)
                | _ => none)
             | none => none)
          | _ => none)
       | none => none)
    | _ => none

end

/-- `JSON.parse` on a character list: trim, parse one value, require the
whole input to be consumed.  (JSON.parse allows leading and trailing
whitespace and nothing else around the value; trimming first and requiring
full consumption expresses exactly that.)  The fuel `2*length+8` is an upper
bound on the number of recursive-descent steps, each of which consumes at
least one input character. -/
def jsonParseL (cs : List Char) : Option Json :=
  let t := jsTrimL cs
  match parseVal (2 * t.length + 8) t with
  | some (v, []) => some v
  | _ => none

/-- `JSON.parse` on a string. -/
def jsonParse (s : String) : Option Json := jsonParseL s.data

/-! ### The response repair engine: cleaning stages (source lines 552-602) -/

/-- Three backticks, the markdown fence marker. -/
def ticks3 : List Char := "```".data

/-- `cleanedContent.replace(/^```json\s*/i, '')` (source line 557): strip a
leading fence marker tagged `json` (case-insensitively) together with the
whitespace following it. -/
def stripJsonFence (cs : List Char) : List Char :=
  match cs with
  | c1 :: c2 :: c3 :: c4 :: c5 :: c6 :: c7 :: rest =>
    if [c1, c2, c3] = ticks3 && c4.toLower = 'j' && c5.toLower = 's'
        && c6.toLower = 'o' && c7.toLower = 'n' then
      dropLeadWsL rest
    else cs
  | _ => cs

/-- `cleanedContent.replace(/^```\s*/, '')` (source line 558): strip a
leading untagged fence marker and the whitespace following it. -/
def stripPlainFence (cs : List Char) : List Char :=
  match cs with
  | c1 :: c2 :: c3 :: rest =>
    if [c1, c2, c3] = ticks3 then dropLeadWsL rest else cs
  | _ => cs

/-- `cleanedContent.replace(/\s*```$/, '')` (source line 559): strip a
trailing fence marker and the whitespace preceding it. -/
def stripTrailFence (cs : List Char) : List Char :=
  match cs.reverse with
  | c1 :: c2 :: c3 :: rest =>
    if [c1, c2, c3] = ticks3 then (dropLeadWsL rest).reverse else cs
  | _ => cs

/-- `cleanedContent.match(/\{[\s\S]*\}/)` (source line 562): the span from
the first opening brace to the last closing brace after it, when such a span
exists; otherwise the text is kept unchanged (lines 562-565). -/
def braceExtract (cs : List Char) : List Char :=
  if ((cs.dropWhile (fun c => c ≠ '{')).reverse.dropWhile (fun c => c ≠ '}')).isEmpty then cs
  else ((cs.dropWhile (fun c => c ≠ '{')).reverse.dropWhile (fun c => c ≠ '}')).reverse

/-- The literal `"schedule"` (with quotes), as tested by
`cleanedContent.includes('"schedule"')`. -/
def schedLit : List Char := "\"schedule\"".data

/-- The literal `"summary"` (with quotes). -/
def summLit : List Char := "\"summary\"".data

/-- The literal `"schedule":`. -/
def schedKeyPat : List Char := "\"schedule\":".data

/-- Does `"schedule":\s*\[` match at the head of the text? -/
def hasSchedPatAt (cs : List Char) : Bool :=
  leadsWith schedKeyPat cs &&
    match dropLeadWsL (cs.drop 11) with
    | '[' :: _ => true
    | _ => false

/-- Does `"schedule":\s*\[` match anywhere in the text? -/
def hasSchedPat : List Char → Bool
  | [] => false
  | c :: rest => hasSchedPatAt (c :: rest) || hasSchedPat rest

/-- `cleanedContent.match(/\{[\s\S]*"schedule":\s*\[[\s\S]*/)` (source line
573): the match starts at the first `{` that is followed somewhere later by
`"schedule":\s*\[`, and extends to the end of the text. -/
def findSchedStart : List Char → Option (List Char)
  | [] => none
  | c :: rest =>
    if c = '{' && hasSchedPat rest then some (c :: rest) else findSchedStart rest

/-- `scheduleContent.replace(/,\s*$/, '')` (source line 584): remove one
trailing comma together with the whitespace after it. -/
def stripTrailComma (cs : List Char) : List Char :=
  match dropLeadWsL cs.reverse with
  | ',' :: r => r.reverse
  | _ => cs

/-- The fixed fallback summary text (source lines 593 and 635). -/
def fallbackSummary : String :=
  "Daily schedule generated based on your preferences and tasks."

/-- The literal fallback summary field appended by the repair stage
(source line 593). -/
def summaryAppendL : List Char :=
  (", \"summary\": \"" ++ fallbackSummary ++ "\"").data

/-- The truncation-repair stage (source lines 571-602): locate the
`schedule`-carrying span, count unmatched brackets and braces, strip a
trailing comma, close the brackets, append the fallback summary field if
`"summary"` is still absent, close the braces. -/
def repairTrunc (cs : List Char) : List Char :=
  match findSchedStart cs with
  | none => cs
  | some sc =>
    let ob := sc.count '['
    let cb := sc.count ']'
    let oB := sc.count '{'
    let cB := sc.count '}'
    let s1 := stripTrailComma sc
    let s2 := s1 ++ List.replicate (ob - cb) ']'
    let s3 := if containsSub summLit s2 then s2 else s2 ++ summaryAppendL
    s3 ++ List.replicate (oB - cB) '}'

/-! ### The field-scraping stage (source lines 612-636) -/

/-- Try to match the regex `"<key>":\s*"[^"]+"` at the head of the text;
on success return the matched text and the remaining input. -/
def tryKeyMatch (key : List Char) (cs : List Char) : Option (List Char × List Char) :=
  let pat := '"' :: key ++ ['"', ':']
  if leadsWith pat cs then
    let afterColon := cs.drop pat.length
    let ws := afterColon.takeWhile isWsChar
    match afterColon.dropWhile isWsChar with
    | '"' :: r2 =>
      let v := r2.takeWhile (fun c => c ≠ '"')
      let r3 := r2.dropWhile (fun c => c ≠ '"')
      if v.isEmpty then none
      else
        (match r3 with
         | '"' :: r4 => some (pat ++ ws ++ '"' :: v ++ ['"'], r4)
         | _ => none)
    | _ => none
  else none

/-- All the matches of `/"<key>":\s*"[^"]+"/g`, scanning left to right,
non-overlapping, as `String.prototype.match` with the `g` flag returns
them.  The fuel is the input length; every step consumes at least one
character. -/
def globalMatchesAux (key : List Char) : Nat → List Char → List (List Char)
  | 0, _ => []
  | _ + 1, [] => []
  | f + 1, c :: rest =>
    match tryKeyMatch key (c :: rest) with
    | some (m, r) => m :: globalMatchesAux key f r
    | none => globalMatchesAux key f rest

/-- All matches of `/"<key>":\s*"[^"]+"/g` in the text. -/
def globalMatches (key : List Char) (cs : List Char) : List (List Char) :=
  globalMatchesAux key cs.length cs

/-- The first match of `/"([^"]+)"/` starting exactly here: group 1. -/
def firstQuotedAt (cs : List Char) : Option (List Char) :=
  match cs with
  | '"' :: r =>
    let v := r.takeWhile (fun c => c ≠ '"')
    if v.isEmpty then none
    else
      (match r.dropWhile (fun c => c ≠ '"') with
       | '"' :: _ => some v
       | _ => none)
  | _ => none

/-- `m.match(/"([^"]+)"/)?.[1]` (source lines 625-628): the first quoted
nonempty chunk of the text.  On a match of `/"time":\s*"[^"]+"/` this is the
key name `time`, not the value after the colon. -/
def firstQuoted : List Char → Option (List Char)
  | [] => none
  | c :: rest =>
    match firstQuotedAt (c :: rest) with
    | some v => some v
    | none => firstQuoted rest

/-- One scraped field: `matches[i].match(/"([^"]+)"/)?.[1] || dflt`. -/
def scrapeField (ms : List (List Char)) (i : Nat) (dflt : String) : String :=
  match ms.get? i with
  | some m =>
    (match firstQuoted m with
     | some v => if v.isEmpty then dflt else ⟨v⟩
     | none => dflt)
  | none => dflt

/-- The field-scraping stage (source lines 614-636): scan for all
occurrences of the four field patterns, build `min` of the four match
counts items pairing by index, with the fixed fallback summary. -/
def scrapeResult (cs : List Char) : Json :=
  let tms := globalMatches "time".data cs
  let ams := globalMatches "activity".data cs
  let dms := globalMatches "duration".data cs
  let yms := globalMatches "type".data cs
  let items :=
    if !tms.isEmpty && !ams.isEmpty && !dms.isEmpty && !yms.isEmpty then
      let n := min (min tms.length ams.length) (min dms.length yms.length)
      (List.range n).map fun i =>
        Json.obj [("time", .str (scrapeField tms i "09:00")),
                  ("activity", .str (scrapeField ams i "Task")),
                  ("duration", .str (scrapeField dms i "30")),
                  ("type", .str (scrapeField yms i "task"))]
    else []
  Json.obj [("schedule", .arr items), ("summary", .str fallbackSummary)]

/-- The hardcoded schedule of the innermost catch (source lines 639-647),
returned when the scraping stage itself throws. -/
def ultimateFallbackPlan : Json :=
  .obj [("schedule", .arr [
      .obj [("time", .str "09:00"), ("activity", .str "Morning Task"),
            ("duration", .str "60"), ("type", .str "task")],
      .obj [("time", .str "10:00"), ("activity", .str "Break"),
            ("duration", .str "15"), ("type", .str "break")],
      .obj [("time", .str "10:15"), ("activity", .str "Work Session"),
            ("duration", .str "90"), ("type", .str "task")],
      .obj [("time", .str "11:45"), ("activity", .str "Lunch"),
            ("duration", .str "60"), ("type", .str "meal")]]),
    ("summary", .str "Basic daily schedule created as fallback.")]

/-! ### JSON.stringify, used by the prompt builder (source line 515) -/

/-- A hexadecimal digit character. -/
def hexDigit (n : Nat) : Char :=
  if n < 10 then Char.ofNat ('0'.toNat + n) else Char.ofNat ('a'.toNat + n - 10)

/-- JSON string escaping of one character, as JSON.stringify performs it. -/
def escChar (c : Char) : List Char :=
  if c = '"' then ['\\', '"']
  else if c = '\\' then ['\\', '\\']
  else if c = '\n' then ['\\', 'n']
  else if c = '\t' then ['\\', 't']
  else if c = '\r' then ['\\', 'r']
  else if c.toNat = 8 then ['\\', 'b']
  else if c.toNat = 12 then ['\\', 'f']
  else if c.toNat < 32 then
    ['\\', 'u', '0', '0', hexDigit (c.toNat / 16), hexDigit (c.toNat % 16)]
  else [c]

/-- JSON string rendering with quotes. -/
def renderStr (s : String) : String := ⟨'"' :: (s.data.flatMap escChar) ++ ['"']⟩

mutual

/-- `JSON.stringify` (no spacing argument). -/
def renderJson : Json → String
  | .null => "null"
  | .bool b => if b then "true" else "false"
  | .num lit => lit
  | .str s => renderStr s
  | .arr items => "[" ++ renderJsonList items ++ "]"
  | .obj fields => "\x7b" ++ renderJsonFields fields ++ "\x7d"

/-- Comma-separated rendering of array elements. -/
def renderJsonList : List Json → String
  | [] => ""
  | [v] => renderJson v
  | v :: rest => renderJson v ++ "," ++ renderJsonList rest

/-- Comma-separated rendering of object fields. -/
def renderJsonFields : List (String × Json) → String
  | [] => ""
  | [(k, v)] => renderStr k ++ ":" ++ renderJson v
  | (k, v) :: rest => renderStr k ++ ":" ++ renderJson v ++ "," ++ renderJsonFields rest

end

/-! ### parseAIResponse (source lines 547-654) -/

/-- The cleaned content before the truncation-repair stage: trim, strip
markdown fences, extract the brace span, trim (source lines 553-568). -/
def cleanStage (raw : List Char) : List Char :=
  jsTrimL (braceExtract (stripTrailFence (stripPlainFence (stripJsonFence (jsTrimL raw)))))

/-- The cleaned content after the conditional truncation-repair stage
(source lines 571-602). -/
def repairStage (raw : List Char) : List Char :=
  let c3 := cleanStage raw
  if containsSub schedLit c3 && !containsSub summLit c3 then repairTrunc c3 else c3

/-- `parseAIResponse` (source lines 547-654).  The flag `scrapeThrows`
models whether the JavaScript runtime throws inside the field-scraping
`try` block (lines 613-636): `false` is the behaviour of the code as
written (none of the operations in that block throws); `true` selects the
innermost catch (lines 637-648). -/
def parseAIResponseO (scrapeThrows : Bool) (raw : String) : Except String Json :=
  match jsonParse raw with
  | some v => .ok v
  | none =>
    let c4 := repairStage raw.data
    match jsonParseL c4 with
    | some v => .ok v
    | none =>
      if containsSub schedLit c4 then
        if scrapeThrows then .ok ultimateFallbackPlan else .ok (scrapeResult c4)
      else
        .error ("Cannot extract valid JSON from AI response: "
          ++ (⟨raw.data.take 200⟩ : String) ++ "...")

/-- `parseAIResponse` as the code behaves (the scraping stage does not
throw). -/
def parseAIResponse : String → Except String Json := parseAIResponseO false

/-! ### Json field access helpers (JavaScript property access) -/

/-- Last binding of a key in a field list (JSON.parse overwrite
semantics for duplicate keys). -/
def getField (fields : List (String × Json)) (key : String) : Option Json :=
  fields.foldl (fun acc kv => if kv.1 = key then some kv.2 else acc) none

/-- JavaScript property access `j.key` (undefined modelled as `none`). -/
def Json.getF : Json → String → Option Json
  | .obj fs, key => getField fs key
  | _, _ => none

/-- Optional chaining `o?.key`. -/
def optF (o : Option Json) (key : String) : Option Json := o.bind (Json.getF · key)

/-- Optional chaining `o?.[i]` on an array. -/
def optIdx (o : Option Json) (i : Nat) : Option Json :=
  match o with
  | some (.arr xs) => xs.get? i
  | _ => none

/-- Is a JSON number literal the number zero (zero mantissa)? -/
def numLitZero (lit : String) : Bool :=
  (lit.data.takeWhile (fun c => c ≠ 'e' && c ≠ 'E')).all
    (fun c => !('1' ≤ c && c ≤ '9'))

/-- JavaScript truthiness of a JSON value. -/
def jsTruthy : Json → Bool
  | .null => false
  | .bool b => b
  | .num lit => !numLitZero lit
  | .str s => !s.isEmpty
  | .arr _ => true
  | .obj _ => true

/-- JavaScript template-literal stringification of a JSON value (numbers
print their stored literal token; see the modelling notes). -/
def jsToStr : Json → String
  | .null => "null"
  | .bool b => if b then "true" else "false"
  | .num lit => lit
  | .str s => s
  | .arr _ => ""
  | .obj _ => "[object Object]"

/-- `o?.‹chain› || dflt`: template substitution with a truthiness
fallback. -/
def tmplOr (o : Option Json) (dflt : String) : String :=
  match o with
  | some j => if jsTruthy j then jsToStr j else dflt
  | none => dflt

/-! ### The prompt builder (source lines 501-544) -/

/-- A row of the `tasks` table as the handler reads it; fields may be
absent (`NULL`), which JavaScript sees as falsy. -/
structure TaskRow where
  title : Option String
  duration_minutes : Option Nat
  importance : Option String

/-- `x || dflt` on an optional string (empty string is falsy). -/
def orStr (o : Option String) (dflt : String) : String :=
  match o with
  | some s => if s.isEmpty then dflt else s
  | none => dflt

/-- `x || dflt` on an optional number (zero is falsy). -/
def orNat (o : Option Nat) (dflt : Nat) : Nat :=
  match o with
  | some n => if n = 0 then dflt else n
  | none => dflt

/-- One task line of the prompt (source line 507):
`` `${t.title || 'Untitled'} – ${t.duration_minutes || 30}m – ${t.importance || 'medium'}` ``. -/
def renderTask (t : TaskRow) : String :=
  orStr t.title "Untitled" ++ " – " ++ toString (orNat t.duration_minutes 30)
    ++ "m – " ++ orStr t.importance "medium"

/-- The task block of the prompt: one line per task, input order
(source lines 506-508). -/
def taskLines (tasks : List TaskRow) : String :=
  String.intercalate "\n" (tasks.map renderTask)

/-- The part of the prompt template before the task block
(source lines 513-518). -/
def promptPre (prefs : Option Json) (weather : Option Json) : String :=
  "You are a personal day planning assistant. Create an optimized daily schedule in JSON format.\n\n"
  ++ "User preferences: " ++ renderJson (prefs.getD (.obj [])) ++ "\n"
  ++ "Weather: " ++ tmplOr (optF (optIdx (optF weather "weather") 0) "description") "unknown"
  ++ ", " ++ tmplOr (optF (optF weather "main") "temp") "unknown" ++ "°C\n"
  ++ "Tasks to schedule:\n"

/-- The part of the prompt template after the task block
(source lines 518-543). -/
def promptPost (prefs : Option Json) : String :=
  "\n\n"
  ++ "IMPORTANT: You must respond with COMPLETE, VALID JSON only. No markdown, no explanations, no comments.\n\n"
  ++ "Generate a JSON response with this EXACT structure:\n"
  ++ "\x7b\n  \"schedule\": [\n    \x7b\n      \"time\": \"HH:MM\",\n      \"activity\": \"task or break name\",\n      \"duration\": \"minutes\",\n      \"type\": \"task|break|meal\"\n    \x7d\n  ],\n  \"summary\": \"Brief summary of the day plan\"\n\x7d\n\n"
  ++ "Requirements:\n"
  ++ "- Include ALL closing brackets and braces\n"
  ++ "- Start with user's wake time (" ++ tmplOr (optF prefs "wake_time") "09:00" ++ ")\n"
  ++ "- Include breaks every " ++ tmplOr (optF prefs "break_interval_minutes") "30" ++ " minutes\n"
  ++ "- Schedule all provided tasks\n"
  ++ "- End before sleep time (" ++ tmplOr (optF prefs "sleep_time") "23:00" ++ ")\n"
  ++ "- Return ONLY the JSON object, nothing else\n\n"
  ++ "Consider the weather, user preferences, task importance, and include appropriate breaks."

/-- The prompt template (source lines 513-543): the part before the task
block, the task block, the part after it. -/
def promptText (prefs : Option Json) (tasks : List TaskRow) (weather : Option Json) : String :=
  promptPre prefs weather ++ taskLines tasks ++ promptPost prefs

/-- `buildPrompt` (source lines 501-544): throws on an empty task list,
otherwise renders the instruction string. -/
def buildPrompt (prefs : Option Json) (tasks : List TaskRow) (weather : Option Json) :
    Except String String :=
  if tasks.isEmpty then .error "No tasks provided for planning"
  else .ok (promptText prefs tasks weather)

/-! ### The plan-generation handler (source lines 199-324) -/

/-- The external calls the handler can make, in the sense of claim C8:
weather fetch, astronomy-picture fetch, completion-model call, plan
persistence. -/
inductive ExtCall where
  | weather : ExtCall
  | apod : ExtCall
  | mistral : ExtCall
  | persistPlan (failed : Bool) : ExtCall

/-- An HTTP response: status code and JSON body (the `json` helper of
source lines 6-15). -/
structure HResp where
  status : Nat
  body : Json

/-- The environment of one `generatePlan` request: the authentication
outcome, what the database holds for the user, and the outcomes of the
external services.  `none` for a fetch models a failed or non-ok call. -/
structure PlanEnv where
  authUser : Option String
  prefsRow : Option Json
  taskRows : List TaskRow
  weatherFetch : Option Json
  apodFetch : Option Json
  mistralContent : Option String
  mistralErrMsg : String
  persistFails : Bool

/-- An error-body response. -/
def errJson (msg : String) : Json := .obj [("error", .str msg)]

/-- The hardcoded weather fallback of source lines 245, 248, 252. -/
def fallbackWeather : Json :=
  .obj [("weather", .arr [.obj [("description", .str "unknown")]]),
        ("main", .obj [("temp", .num "20")])]

/-- `generatePlan` (source lines 199-324), returning the response together
with the trace of external calls made, in order.  Database reads/writes to
`users`, `preferences` and `tasks` are not external calls in the sense of
the claims and are kept implicit in `PlanEnv`. -/
def generatePlan (env : PlanEnv) : HResp × List ExtCall :=
  match env.authUser with
  | none => ({ status := 500, body := errJson "Authentication failed" }, [])
  | some _uid =>
    match env.prefsRow with
    | none =>
      ({ status := 400,
         body := errJson "User preferences not found. Please set up your preferences first." }, [])
    | some prefs =>
      if env.taskRows.isEmpty then
        ({ status := 400,
           body := errJson "No tasks found for today. Please add some tasks first." }, [])
      else
        let wtr : Json × List ExtCall :=
          if (optF (some prefs) "city").elim false jsTruthy then
            match env.weatherFetch with
            | some w => (w, [.weather])
            | none => (fallbackWeather, [.weather])
          else (fallbackWeather, [])
        let apod : Option Json := env.apodFetch
        let tr1 : List ExtCall := wtr.2 ++ [.apod]
        match buildPrompt (some prefs) env.taskRows (some wtr.1) with
        | .error e => ({ status := 500, body := errJson e }, tr1)
        | .ok _prompt =>
          match env.mistralContent with
          | none =>
            ({ status := 500,
               body := errJson ("Failed to generate plan: " ++ env.mistralErrMsg) },
             tr1 ++ [.mistral])
          | some content =>
            match parseAIResponse content with
            | .error _ =>
              ({ status := 500,
                 body := errJson "Failed to generate plan: Failed to parse AI response as JSON" },
               tr1 ++ [.mistral])
            | .ok plan =>
              ({ status := 200,
                 body := .obj [("plan", plan), ("apod", apod.getD .null),
                               ("weather", wtr.1)] },
               tr1 ++ [.mistral, .persistPlan env.persistFails])

/-! ### The plan schema of the spec (section 3: ScheduleItem and Plan) -/

/-- Does a JSON value look like one ScheduleItem: `time`, `activity` and
`type` strings, `duration` string-or-number? -/
def isSchedItem (j : Json) : Bool :=
  match j with
  | .obj fs =>
    (match getField fs "time" with | some (.str _) => true | _ => false)
    && (match getField fs "activity" with | some (.str _) => true | _ => false)
    && (match getField fs "duration" with
        | some (.str _) => true | some (.num _) => true | _ => false)
    && (match getField fs "type" with | some (.str _) => true | _ => false)
  | _ => false

/-- Does a JSON value match the `(schedule, summary)` schema of the spec? -/
def matchesPlanSchema (j : Json) : Bool :=
  match j with
  | .obj fs =>
    (match getField fs "schedule" with
     | some (.arr items) => items.all isSchedItem
     | _ => false)
    && (match getField fs "summary" with | some (.str _) => true | _ => false)
  | _ => false

/-- `n` occurs contiguously inside `h`. -/
def SubL (n h : List Char) : Prop := ∃ p q, h = p ++ n ++ q

/-- The bare word `schedule`. -/
def schedBare : List Char := "schedule".data

/-- The schema-valid completion used as witness input for C4. -/
def c4Input : String :=
  "\x7b\"schedule\": [\x7b\"time\": \"09:00\", \"activity\": \"A\", \"duration\": \"30\", \"type\": \"task\"\x7d], \"summary\": \"ok\"\x7d"

/-- The parse of `c4Input`. -/
def c4Value : Json :=
  .obj [("schedule", .arr [.obj [("time", .str "09:00"), ("activity", .str "A"),
          ("duration", .str "30"), ("type", .str "task")]]),
        ("summary", .str "ok")]

/-- A concrete environment with preferences and no tasks. -/
def c8Env : PlanEnv :=
  { authUser := some "user_1", prefsRow := some (.obj [("city", .str "Pune")]),
    taskRows := [], weatherFetch := none, apodFetch := none,
    mistralContent := none, mistralErrMsg := "MistralAI API error: 500",
    persistFails := false }

/-- A concrete environment whose persistence write fails. -/
def c9Env : PlanEnv :=
  { authUser := some "user_2", prefsRow := some (.obj [("city", .str "")]),
    taskRows := [{ title := some "Write report", duration_minutes := some 60,
                   importance := some "high" }],
    weatherFetch := none, apodFetch := none,
    mistralContent := some "\x7b\"schedule\": [], \"summary\": \"s\"\x7d",
    mistralErrMsg := "", persistFails := true }

/-- An unparseable completion carrying one full set of scrapable fields
with concrete values. -/
def c2Input : String :=
  "\"schedule\" \x7b\"time\": \"07:15\", \"activity\": \"Review\", \"duration\": \"45\", \"type\": \"task\""

/-- An unparseable completion mentioning `"schedule"`, used for C6. -/
def c6Input : String := "\"schedule\" ???"

/-! ### Truncated completions: the canonical text family of claim C1 -/

/-- A transient schedule item (spec section 3), with the four fields the
prompt requests. -/
structure ScheduleItem where
  time : String
  activity : String
  duration : String
  type : String

/-- The JSON value of one schedule item. -/
def itemJson (i : ScheduleItem) : Json :=
  .obj [("time", .str i.time), ("activity", .str i.activity),
        ("duration", .str i.duration), ("type", .str i.type)]

/-- One `"key": "value"` field of a rendered item, followed by the given
continuation (either a comma-space and the next field, or a closing
brace). -/
def fieldSeg (key val : String) (sep : List Char) : List Char :=
  '"' :: (key.data ++ '"' :: ':' :: ' ' :: '"' :: (val.data ++ '"' :: sep))

/-- A rendered schedule item, exactly as the prompt's schema puts it:
an object with the four string fields. -/
def renderItemL (i : ScheduleItem) : List Char :=
  '{' :: fieldSeg "time" i.time (',' :: ' ' :: fieldSeg "activity" i.activity
    (',' :: ' ' :: fieldSeg "duration" i.duration
      (',' :: ' ' :: fieldSeg "type" i.type ['}'])))

/-- Comma-separated continuation of a rendered item list. -/
def renderTailL : List ScheduleItem → List Char
  | [] => []
  | i :: rest => ',' :: ' ' :: (renderItemL i ++ renderTailL rest)

/-- A comma-separated rendered item list. -/
def renderItemsL : List ScheduleItem → List Char
  | [] => []
  | i :: rest => renderItemL i ++ renderTailL rest

/-- The opening of a schedule completion up to and including the bracket
that opens the schedule array. -/
def outerPre : List Char :=
  '{' :: '"' :: ("schedule".data ++ '"' :: ':' :: ' ' :: '[' :: [])

/-- A completion truncated right after `comma`-many complete schedule
items (optionally right after the separating comma), before the closing
bracket, the summary field and the closing brace could be produced: the
canonical shape of the cut-off completions of claim C1. -/
def truncTextL (items : List ScheduleItem) (comma : Bool) : List Char :=
  outerPre ++ renderItemsL items ++ (if comma then [','] else [])

/-- The repaired completion the truncation-repair stage should produce:
array closed, fallback summary appended, object closed. -/
def fullTextL (items : List ScheduleItem) : List Char :=
  outerPre ++ renderItemsL items ++ ']' :: (summaryAppendL ++ ['}'])

/-- The structured value of a fully repaired truncated completion. -/
def planJson (items : List ScheduleItem) : Json :=
  .obj [("schedule", .arr (items.map itemJson)), ("summary", .str fallbackSummary)]

/-- Characters allowed in the field strings of claim C1's truncated
completions: printable, no quote, no backslash, no brace, no bracket
(so that the rendered item text is parseable and bracket counting sees
only the structural brackets). -/
def C1Ch (c : Char) : Bool :=
  32 ≤ c.toNat && c ≠ '"' && c ≠ '\\' && c ≠ '{' && c ≠ '}' && c ≠ '[' && c ≠ ']'

/-- All four fields of an item consist of `C1Ch` characters. -/
def itemPlain (i : ScheduleItem) : Bool :=
  i.time.data.all C1Ch && i.activity.data.all C1Ch
    && i.duration.data.all C1Ch && i.type.data.all C1Ch

/-- The continuation of `parseObjFields` after one parsed field: stop at a
closing brace, continue at a comma, fail otherwise (the tail of the
object-fields grammar). -/
def objContinue (f : Nat) (acc : List (String × Json)) (sep : List Char) :
    Option (Json × List Char) :=
  match dropLeadWsL sep with
  | ',' :: r4 => parseObjFields f acc (dropLeadWsL r4)
  | '}' :: r4 => some (.obj acc, r4)
  | _ => none

/-- The backtick character. -/
def btChar : Char := Char.ofNat 96

/-- A completion wrapped in markdown code fences, the opener optionally
tagged `json` (claim C5). -/
def fenceWrap (tag : Bool) (t : String) : String :=
  (if tag then "```json\n" else "```\n") ++ t ++ "\n```"

/-- The two concrete schedule items of the C1 witness. -/
def c1Items : List ScheduleItem :=
  [{ time := "09:00", activity := "Deep work", duration := "90", type := "task" },
   { time := "10:30", activity := "Break", duration := "15", type := "break" }]

/-- A schema-valid completion containing the literal `"summary"` key,
the witness input for C5. -/
def c5Input : String := "\x7b\"schedule\": [], \"summary\": \"ok\"\x7d"

/-- The parse of `c5Input` (and of `c5Escaped`). -/
def c5Value : Json := .obj [("schedule", .arr []), ("summary", .str "ok")]

/-- A schema-valid completion whose `summary` key is spelled with the JSON
escape `\u0061` in place of the `a`, so that the text parses to the same
value as `c5Input` but lacks the literal substring `"summary"`. -/
def c5Escaped : String := "\x7b\"schedule\": [], \"summ\\u0061ry\": \"ok\"\x7d"

/-! ## Theorems -/

/-! ### Substring facts -/

theorem leadsWith_iff : ∀ (n h : List Char), leadsWith n h = true ↔ ∃ t, h = n ++ t
  | [], h => by simp [leadsWith]
  | _ :: _, [] => by simp [leadsWith]
  | c :: cs, d :: ds => by
    simp only [leadsWith, Bool.and_eq_true, decide_eq_true_eq, leadsWith_iff cs ds,
      List.cons_append]
    constructor
    · rintro ⟨rfl, t, rfl⟩; exact ⟨t, rfl⟩
    · rintro ⟨t, ht⟩
      rw [List.cons.injEq] at ht
      exact ⟨ht.1.symm, t, ht.2⟩

theorem containsSub_iff : ∀ (h n : List Char), containsSub n h = true ↔ SubL n h
  | [], n => by
    constructor
    · intro hc
      have hn : n = [] := by
        cases n with
        | nil => rfl
        | cons a b => simp [containsSub, List.isEmpty] at hc
      exact ⟨[], [], by simp [hn]⟩
    · rintro ⟨p, q, hpq⟩
      have hp : p = [] := by cases p <;> simp_all
      have hn : n = [] := by subst hp; cases n <;> simp_all
      simp [containsSub, hn, List.isEmpty]
  | c :: rest, n => by
    simp only [containsSub, Bool.or_eq_true, leadsWith_iff, containsSub_iff rest n]
    constructor
    · rintro (⟨t, ht⟩ | ⟨p, q, hpq⟩)
      · exact ⟨[], t, by simp [ht]⟩
      · exact ⟨c :: p, q, by simp [hpq]⟩
    · rintro ⟨p, q, hpq⟩
      cases p with
      | nil => exact Or.inl ⟨q, by simpa using hpq⟩
      | cons p0 ps =>
        simp only [List.cons_append, List.cons.injEq] at hpq
        exact Or.inr ⟨ps, q, by simpa [List.append_assoc] using hpq.2⟩

theorem SubL_refl (a : List Char) : SubL a a := ⟨[], [], by simp⟩

theorem SubL_trans {a b c : List Char} (h1 : SubL a b) (h2 : SubL b c) : SubL a c := by
  obtain ⟨p1, q1, rfl⟩ := h1
  obtain ⟨p2, q2, rfl⟩ := h2
  exact ⟨p2 ++ p1, q1 ++ q2, by simp⟩

theorem dropLeadWsL_subL (cs : List Char) : SubL (dropLeadWsL cs) cs :=
  ⟨cs.takeWhile isWsChar, [], by simp [dropLeadWsL, List.takeWhile_append_dropWhile]⟩

theorem rev_decomp (p : Char → Bool) (l : List Char) :
    l = (l.reverse.dropWhile p).reverse ++ (l.reverse.takeWhile p).reverse := by
  conv_lhs => rw [← List.reverse_reverse l,
    ← List.takeWhile_append_dropWhile (p := p) (l := l.reverse)]
  rw [List.reverse_append]

theorem reverse_dropLead_subL (cs : List Char) : SubL (dropLeadWsL cs.reverse).reverse cs := by
  refine ⟨[], (cs.reverse.takeWhile isWsChar).reverse, ?_⟩
  simp only [List.nil_append, dropLeadWsL]
  exact rev_decomp isWsChar cs

theorem jsTrimL_subL (cs : List Char) : SubL (jsTrimL cs) cs := by
  unfold jsTrimL dropTrailWsL
  exact SubL_trans (reverse_dropLead_subL _) (dropLeadWsL_subL _)

theorem stripJsonFence_subL (cs : List Char) : SubL (stripJsonFence cs) cs := by
  unfold stripJsonFence
  split
  · next c1 c2 c3 c4 c5 c6 c7 rest =>
    split
    · exact SubL_trans (dropLeadWsL_subL rest) ⟨[c1, c2, c3, c4, c5, c6, c7], [], by simp⟩
    · exact SubL_refl _
  · exact SubL_refl _

theorem stripPlainFence_subL (cs : List Char) : SubL (stripPlainFence cs) cs := by
  unfold stripPlainFence
  split
  · next c1 c2 c3 rest =>
    split
    · exact SubL_trans (dropLeadWsL_subL rest) ⟨[c1, c2, c3], [], by simp⟩
    · exact SubL_refl _
  · exact SubL_refl _

theorem stripTrailFence_subL (cs : List Char) : SubL (stripTrailFence cs) cs := by
  unfold stripTrailFence
  split
  · next c1 c2 c3 rest heq =>
    split
    · have hcs : cs = rest.reverse ++ [c3, c2, c1] := by
        have h2 := congrArg List.reverse heq
        simpa using h2
      refine ⟨[], (rest.reverse.reverse.takeWhile isWsChar).reverse ++ [c3, c2, c1], ?_⟩
      have h3 := rev_decomp isWsChar rest.reverse
      calc cs = rest.reverse ++ [c3, c2, c1] := hcs
        _ = ((rest.reverse.reverse.dropWhile isWsChar).reverse
              ++ (rest.reverse.reverse.takeWhile isWsChar).reverse) ++ [c3, c2, c1] := by
            rw [← h3]
        _ = _ := by simp [dropLeadWsL, List.append_assoc]
    · exact SubL_refl _
  · exact SubL_refl _

theorem braceExtract_subL (cs : List Char) : SubL (braceExtract cs) cs := by
  unfold braceExtract
  split
  · exact SubL_refl _
  · refine ⟨cs.takeWhile (fun c => c ≠ '{'),
      ((cs.dropWhile (fun c => c ≠ '{')).reverse.takeWhile (fun c => c ≠ '}')).reverse, ?_⟩
    have h1 : cs = cs.takeWhile (fun c => c ≠ '{') ++ cs.dropWhile (fun c => c ≠ '{') := by
      rw [List.takeWhile_append_dropWhile]
    have h2 := rev_decomp (fun c => c ≠ '}') (cs.dropWhile (fun c => c ≠ '{'))
    conv_lhs => rw [h1, h2]
    simp [List.append_assoc]

theorem cleanStage_subL (cs : List Char) : SubL (cleanStage cs) cs := by
  unfold cleanStage
  exact SubL_trans (jsTrimL_subL _) (SubL_trans (braceExtract_subL _)
    (SubL_trans (stripTrailFence_subL _) (SubL_trans (stripPlainFence_subL _)
      (SubL_trans (stripJsonFence_subL _) (jsTrimL_subL _)))))

theorem schedBare_subL_schedLit : SubL schedBare schedLit :=
  ⟨['"'], ['"'], rfl⟩

/-! ### Whitespace and trim facts -/

theorem dropLead_cons_nonws {c : Char} (l : List Char) (h : isWsChar c = false) :
    dropLeadWsL (c :: l) = c :: l := by
  simp [dropLeadWsL, List.dropWhile_cons, h]

theorem dropLead_cons_ws {c : Char} (l : List Char) (h : isWsChar c = true) :
    dropLeadWsL (c :: l) = dropLeadWsL l := by
  simp [dropLeadWsL, List.dropWhile_cons, h]

theorem dropLead_idem (l : List Char) : dropLeadWsL (dropLeadWsL l) = dropLeadWsL l := by
  induction l with
  | nil => rfl
  | cons a t ih =>
    cases h : isWsChar a with
    | true => rw [dropLead_cons_ws t h]; exact ih
    | false => rw [dropLead_cons_nonws t h, dropLead_cons_nonws t h]

theorem dropLead_prefix_noop (p q : List Char) (hl : dropLeadWsL (p ++ q) = p ++ q) :
    dropLeadWsL p = p := by
  cases p with
  | nil => rfl
  | cons a t =>
    cases h : isWsChar a with
    | false => exact dropLead_cons_nonws t h
    | true =>
      exfalso
      rw [List.cons_append, dropLead_cons_ws _ h] at hl
      have h1 := congrArg List.length hl
      have h2 := (List.dropWhile_sublist (p := isWsChar) (l := t ++ q)).length_le
      simp [dropLeadWsL] at h1
      simp at h2
      omega

theorem dropTrail_eq_rev (l : List Char) :
    dropTrailWsL l = (dropLeadWsL l.reverse).reverse := rfl

theorem dropTrail_prefix (l : List Char) :
    l = dropTrailWsL l ++ (l.reverse.takeWhile isWsChar).reverse := by
  have h := rev_decomp isWsChar l
  rw [dropTrail_eq_rev]
  exact h

theorem dropLead_dropTrail_noop (l : List Char) (h : dropLeadWsL l = l) :
    dropLeadWsL (dropTrailWsL l) = dropTrailWsL l := by
  have hp := dropTrail_prefix l
  exact dropLead_prefix_noop _ _ (by rw [← hp, h])

theorem dropTrail_idem (l : List Char) : dropTrailWsL (dropTrailWsL l) = dropTrailWsL l := by
  rw [dropTrail_eq_rev, dropTrail_eq_rev, List.reverse_reverse, dropLead_idem]

theorem jsTrim_idem (l : List Char) : jsTrimL (jsTrimL l) = jsTrimL l := by
  unfold jsTrimL
  rw [dropLead_dropTrail_noop _ (dropLead_idem l), dropTrail_idem]

theorem dropLead_jsTrim (l : List Char) : dropLeadWsL (jsTrimL l) = jsTrimL l := by
  unfold jsTrimL
  exact dropLead_dropTrail_noop _ (dropLead_idem l)

theorem jsTrim_noop (x : List Char)
    (h1 : ∀ c, x.head? = some c → isWsChar c = false)
    (h2 : ∀ c, x.getLast? = some c → isWsChar c = false) : jsTrimL x = x := by
  have hL : dropLeadWsL x = x := by
    cases x with
    | nil => rfl
    | cons a t => exact dropLead_cons_nonws t (h1 a rfl)
  have hR : dropLeadWsL x.reverse = x.reverse := by
    cases hx : x.reverse with
    | nil => rfl
    | cons a t =>
      have hga : x.getLast? = some a := by
        rw [← List.head?_reverse, hx]; rfl
      exact dropLead_cons_nonws t (h2 a hga)
  unfold jsTrimL dropTrailWsL
  rw [hL, hR, List.reverse_reverse]

theorem dropLead_append_of_ne_nil (l₁ l₂ : List Char) (h : dropLeadWsL l₁ ≠ []) :
    dropLeadWsL (l₁ ++ l₂) = dropLeadWsL l₁ ++ l₂ := by
  unfold dropLeadWsL at *
  rw [List.dropWhile_append]
  simp only [List.isEmpty_iff]
  exact if_neg h

/-! ### Fence-stripping facts -/

theorem ticks3_eq : ticks3 = [btChar, btChar, btChar] := rfl

theorem stripJsonFence_keep (c : Char) (X : List Char) (h : c ≠ btChar) :
    stripJsonFence (c :: X) = c :: X := by
  rcases X with _ | ⟨c2, _ | ⟨c3, _ | ⟨c4, _ | ⟨c5, _ | ⟨c6, _ | ⟨c7, rest⟩⟩⟩⟩⟩⟩ <;>
    simp [stripJsonFence, ticks3_eq, h]

theorem stripPlainFence_keep (c : Char) (X : List Char) (h : c ≠ btChar) :
    stripPlainFence (c :: X) = c :: X := by
  rcases X with _ | ⟨c2, _ | ⟨c3, rest⟩⟩ <;>
    simp [stripPlainFence, ticks3_eq, h]

theorem stripTrailFence_keep (cs : List Char) (d : Char) (Y : List Char)
    (hrev : cs.reverse = d :: Y) (h : d ≠ btChar) : stripTrailFence cs = cs := by
  unfold stripTrailFence
  rw [hrev]
  rcases Y with _ | ⟨c2, _ | ⟨c3, rest⟩⟩ <;> simp [ticks3_eq, h]

theorem stripJsonFence_ticks_nl (Y : List Char) :
    stripJsonFence (btChar :: btChar :: btChar :: '\n' :: Y)
      = btChar :: btChar :: btChar :: '\n' :: Y := by
  rcases Y with _ | ⟨c2, _ | ⟨c3, _ | ⟨c4, rest⟩⟩⟩ <;>
    simp [stripJsonFence, ticks3_eq, btChar]

theorem stripJsonFence_json (Y : List Char) :
    stripJsonFence (btChar :: btChar :: btChar :: 'j' :: 's' :: 'o' :: 'n' :: Y)
      = dropLeadWsL Y := by
  simp [stripJsonFence, ticks3_eq, btChar]

theorem stripPlainFence_ticks (Y : List Char) :
    stripPlainFence (btChar :: btChar :: btChar :: Y) = dropLeadWsL Y := by
  simp [stripPlainFence, ticks3_eq]

theorem stripTrailFence_ticks (cs : List Char) (Y : List Char)
    (hrev : cs.reverse = btChar :: btChar :: btChar :: Y) :
    stripTrailFence cs = (dropLeadWsL Y).reverse := by
  unfold stripTrailFence
  rw [hrev]
  simp [ticks3_eq]

/-! ### Brace-extraction facts -/

theorem braceExtract_id (cs : List Char) (r B : List Char)
    (h1 : cs = '{' :: r) (h2 : cs = B ++ ['}']) : braceExtract cs = cs := by
  have hdw : cs.dropWhile (fun c => c ≠ '{') = cs := by
    rw [h1]; simp [List.dropWhile_cons]
  have hrev : cs.reverse = '}' :: B.reverse := by rw [h2]; simp
  have hdw2 : cs.reverse.dropWhile (fun c => c ≠ '}') = cs.reverse := by
    rw [hrev]; simp [List.dropWhile_cons]
  unfold braceExtract
  rw [hdw, hdw2, hrev]
  simp [← hrev]

theorem braceExtract_snoc_comma (cs : List Char) (r B : List Char)
    (h1 : cs = '{' :: r) (h2 : cs = B ++ ['}']) :
    braceExtract (cs ++ [',']) = cs := by
  have hdw : (cs ++ [',']).dropWhile (fun c => c ≠ '{') = cs ++ [','] := by
    rw [h1]; simp [List.dropWhile_cons]
  have hrev : (cs ++ [',']).reverse = ',' :: '}' :: B.reverse := by
    rw [h2]; simp
  have hdw2 : (cs ++ [',']).reverse.dropWhile (fun c => c ≠ '}') = '}' :: B.reverse := by
    rw [hrev]; simp [List.dropWhile_cons]
  unfold braceExtract
  rw [hdw, hdw2]
  simp [h2]

/-! ### More substring facts -/

theorem subL_snoc (n X : List Char) (c : Char) (hn : n ≠ []) (hc : c ∉ n)
    (h : SubL n (X ++ [c])) : SubL n X := by
  obtain ⟨p, q, heq⟩ := h
  rcases q.eq_nil_or_concat' with rfl | ⟨q0, c2, rfl⟩
  · rw [List.append_nil] at heq
    rcases n.eq_nil_or_concat' with rfl | ⟨n0, cn, rfl⟩
    · exact absurd rfl hn
    · rw [← List.append_assoc] at heq
      have hinj := List.append_inj' heq (by rfl)
      have : c = cn := by simpa using hinj.2
      exact absurd (by simp [this]) hc
  · have heq2 : (p ++ n ++ q0) ++ [c2] = X ++ [c] := by
      rw [heq]; simp [List.append_assoc]
    have hinj := List.append_inj' heq2 (by rfl)
    exact ⟨p, q0, hinj.1.symm⟩

theorem subL_reverse (n x : List Char) (h : SubL n x) : SubL n.reverse x.reverse := by
  obtain ⟨p, q, rfl⟩ := h
  exact ⟨q.reverse, p.reverse, by simp⟩

theorem subL_dropLead (n x : List Char) (hn : n ≠ [])
    (hw : ∀ c ∈ n, isWsChar c = false) (h : SubL n x) : SubL n (dropLeadWsL x) := by
  obtain ⟨p, q, rfl⟩ := h
  have hdn : dropLeadWsL (n ++ q) = n ++ q := by
    cases n with
    | nil => exact absurd rfl hn
    | cons a t =>
      rw [List.cons_append]
      exact dropLead_cons_nonws _ (hw a (by simp))
  rw [List.append_assoc, dropLeadWsL, List.dropWhile_append]
  simp only [List.isEmpty_iff]
  split
  · rw [show List.dropWhile isWsChar (n ++ q) = n ++ q from hdn]
    exact ⟨[], q, by simp⟩
  · exact ⟨List.dropWhile isWsChar p, q, by simp⟩

theorem subL_jsTrim (n x : List Char) (hn : n ≠ [])
    (hw : ∀ c ∈ n, isWsChar c = false) (h : SubL n x) : SubL n (jsTrimL x) := by
  unfold jsTrimL dropTrailWsL
  have h1 := subL_dropLead n x hn hw h
  have h2 := subL_reverse n (dropLeadWsL x) h1
  have h3 := subL_dropLead n.reverse (dropLeadWsL x).reverse
    (by simpa using hn) (by intro c hc; exact hw c (by simpa using hc)) h2
  have h4 := subL_reverse n.reverse (dropLeadWsL (dropLeadWsL x).reverse) h3
  simpa using h4

/-! ### Claims decided by direct computation or by unfolding the handler -/

/-- C10: for every input string that is valid JSON, `parseAIResponse`
returns the directly parsed value and never raises, even when that value
does not match the plan schema: no schema validation happens on a
successful direct parse. -/
theorem C10_direct_parse_no_schema_validation (s : String) (v : Json)
    (h : jsonParse s = some v) : parseAIResponse s = .ok v := by
  simp [parseAIResponse, parseAIResponseO, h]

/-- Witness for C10 at the schema-violating input `[]`. -/
theorem C10_witness :
    jsonParse "[]" = some (.arr []) ∧ parseAIResponse "[]" = .ok (.arr []) :=
  ⟨rfl, C10_direct_parse_no_schema_validation "[]" (.arr []) rfl⟩

/-- C4: for every raw string that is valid JSON matching the
`(schedule, summary)` schema, `parseAIResponse` returns exactly the
directly parsed value, unchanged (stage-1 short-circuit, no repair). -/
theorem C4_schema_valid_short_circuit (s : String) (v : Json)
    (h : jsonParse s = some v) (_hschema : matchesPlanSchema v = true) :
    parseAIResponse s = .ok v := by
  simp [parseAIResponse, parseAIResponseO, h]

/-- Witness for C4. -/
theorem C4_witness :
    jsonParse c4Input = some c4Value ∧ matchesPlanSchema c4Value = true
      ∧ parseAIResponse c4Input = .ok c4Value :=
  ⟨rfl, rfl, C4_schema_valid_short_circuit c4Input c4Value rfl rfl⟩

/-- C8: for every authenticated plan request whose user has preferences
but zero tasks for the day, the handler answers 400 with the
no-tasks message and the external-call trace is empty: no weather fetch,
no astronomy fetch, no completion call, no persistence happens. -/
theorem C8_no_tasks_400_before_external_calls (env : PlanEnv) (uid : String) (p : Json)
    (hAuth : env.authUser = some uid) (hPrefs : env.prefsRow = some p)
    (hTasks : env.taskRows = []) :
    generatePlan env =
      ({ status := 400,
         body := errJson "No tasks found for today. Please add some tasks first." }, []) := by
  simp [generatePlan, hAuth, hPrefs, hTasks]

/-- Witness for C8. -/
theorem C8_witness :
    generatePlan c8Env =
      ({ status := 400,
         body := errJson "No tasks found for today. Please add some tasks first." }, []) :=
  C8_no_tasks_400_before_external_calls c8Env "user_1" (.obj [("city", .str "Pune")])
    rfl rfl rfl

/-- C9: when the completion parses into a plan but the write to the plans
table fails, the handler still answers 200 and the body carries the
computed plan; the failed persistence call appears in the trace but does
not change the response. -/
theorem C9_persistence_failure_nonfatal (env : PlanEnv) (uid : String) (p : Json)
    (c : String) (plan : Json)
    (hAuth : env.authUser = some uid) (hPrefs : env.prefsRow = some p)
    (hTasks : env.taskRows ≠ []) (hC : env.mistralContent = some c)
    (hParse : parseAIResponse c = .ok plan) (hPersist : env.persistFails = true) :
    (generatePlan env).1.status = 200
      ∧ (generatePlan env).1.body.getF "plan" = some plan
      ∧ ExtCall.persistPlan true ∈ (generatePlan env).2 := by
  have hTE : env.taskRows.isEmpty = false := by
    cases h : env.taskRows with
    | nil => exact absurd h hTasks
    | cons a t => rfl
  refine ⟨?_, ?_, ?_⟩ <;>
    simp [generatePlan, hAuth, hPrefs, hTE, hC, hParse, hPersist, buildPrompt,
      Json.getF, getField]

/-- Witness for C9. -/
theorem C9_witness :
    (generatePlan c9Env).1.status = 200
      ∧ (generatePlan c9Env).1.body.getF "plan"
          = some (.obj [("schedule", .arr []), ("summary", .str "s")])
      ∧ ExtCall.persistPlan true ∈ (generatePlan c9Env).2 :=
  C9_persistence_failure_nonfatal c9Env "user_2" (.obj [("city", .str "")])
    "\x7b\"schedule\": [], \"summary\": \"s\"\x7d"
    (.obj [("schedule", .arr []), ("summary", .str "s")]) rfl rfl
    (by simp [c9Env]) rfl rfl rfl

/-- C2, what the code actually does at `c2Input`: the scraping stage finds
one match of each field pattern, but the per-match extraction
`m.match(/"([^"]+)"/)?.[1]` captures the first quoted chunk of the match,
which is the key name, so the produced item is the constant
`(time, activity, duration, type)` record instead of the values
`(07:15, Review, 45, task)` the claim describes. -/
theorem C2_scrape_captures_key_names :
    parseAIResponse c2Input =
      .ok (.obj [("schedule", .arr [.obj [("time", .str "time"),
              ("activity", .str "activity"), ("duration", .str "duration"),
              ("type", .str "type")]]),
            ("summary", .str fallbackSummary)])
    ∧ ("time" : String) ≠ "07:15" := ⟨rfl, by decide⟩

/-- C6 counterexample: when the scraping stage throws, the returned
hardcoded plan's summary is `Basic daily schedule created as fallback.`,
not the fixed fallback summary the claim states. -/
theorem C6_counterexample :
    parseAIResponseO true c6Input = .ok ultimateFallbackPlan
      ∧ ultimateFallbackPlan.getF "summary"
          = some (.str "Basic daily schedule created as fallback.")
      ∧ ("Basic daily schedule created as fallback." : String) ≠ fallbackSummary :=
  ⟨rfl, rfl, by decide⟩

/-- C6 as amended: whenever the scraping stage throws while the cleaned
text contains `"schedule"`, `parseAIResponse` returns the hardcoded 4-item
schedule with the summary `Basic daily schedule created as fallback.`,
rather than raising an error. -/
theorem C6_scrape_exception_hardcoded_schedule (raw : String)
    (hDirect : jsonParse raw = none)
    (hClean : jsonParseL (repairStage raw.data) = none)
    (hSched : containsSub schedLit (repairStage raw.data) = true) :
    parseAIResponseO true raw = .ok ultimateFallbackPlan := by
  simp [parseAIResponseO, hDirect, hClean, hSched]

/-- Witness for the amended C6. -/
theorem C6_witness :
    parseAIResponseO true "\"schedule\" !!" = .ok ultimateFallbackPlan :=
  C6_scrape_exception_hardcoded_schedule "\"schedule\" !!" rfl rfl rfl

/-- C3 counterexample: `42` contains no `schedule` substring anywhere, yet
`parseAIResponse` does not raise: the direct parse succeeds. -/
theorem C3_counterexample :
    containsSub schedBare "42".data = false ∧ parseAIResponse "42" = .ok (.num "42") :=
  ⟨rfl, rfl⟩

/-- C3 as amended: for every raw text with no `schedule` substring
anywhere on which the direct parse and the cleaned-text parse both fail,
`parseAIResponse` raises the unrecoverable-response error carrying the
first 200 characters of the original text. -/
theorem C3_no_schedule_raises (raw : String)
    (hNoSched : containsSub schedBare raw.data = false)
    (hDirect : jsonParse raw = none)
    (hClean : jsonParseL (cleanStage raw.data) = none) :
    parseAIResponse raw =
      .error ("Cannot extract valid JSON from AI response: "
        ++ (⟨raw.data.take 200⟩ : String) ++ "...") := by
  have noSub : ¬ SubL schedBare raw.data := by
    intro hs
    have h1 := (containsSub_iff raw.data schedBare).2 hs
    rw [hNoSched] at h1
    exact Bool.false_ne_true h1
  have noLitClean : containsSub schedLit (cleanStage raw.data) = false := by
    cases hx : containsSub schedLit (cleanStage raw.data) with
    | false => rfl
    | true =>
      exact (noSub (SubL_trans schedBare_subL_schedLit
        (SubL_trans ((containsSub_iff _ _).1 hx) (cleanStage_subL _)))).elim
  have hRepair : repairStage raw.data = cleanStage raw.data := by
    simp [repairStage, noLitClean]
  rw [parseAIResponse, parseAIResponseO, hDirect]
  simp only [hRepair, hClean, noLitClean]
  simp

/-- Witness for the amended C3. -/
theorem C3_witness :
    parseAIResponse "hello" =
      .error "Cannot extract valid JSON from AI response: hello..." :=
  C3_no_schedule_raises "hello" rfl rfl rfl


/-- C7: buildPrompt signals an error on an empty task sequence; for every
non-empty task sequence the produced instruction string contains each task
rendered as title-or-Untitled, duration-or-30 and importance-or-medium,
one per line, in the input order: the whole newline-joined task block
occurs contiguously in the prompt. -/
theorem C7_buildPrompt_tasks (prefs : Option Json) (tasks : List TaskRow)
    (weather : Option Json) :
    (tasks = [] → buildPrompt prefs tasks weather = .error "No tasks provided for planning")
    ∧ (tasks ≠ [] →
        buildPrompt prefs tasks weather = .ok (promptText prefs tasks weather)
        ∧ SubL (taskLines tasks).data (promptText prefs tasks weather).data) := by
  constructor
  · intro h; simp [buildPrompt, h]
  · intro h
    have hTE : tasks.isEmpty = false := by
      cases tasks with
      | nil => exact absurd rfl h
      | cons a t => rfl
    refine ⟨by simp [buildPrompt, hTE], ?_⟩
    exact ⟨(promptPre prefs weather).data, (promptPost prefs).data, by
      simp [promptText, String.data_append]⟩

/-- Witness for C7, at the empty task list and at a one-task list whose
fields are all absent. -/
theorem C7_witness :
    buildPrompt none [] none = .error "No tasks provided for planning"
    ∧ (buildPrompt none [⟨none, none, none⟩] none
        = .ok (promptText none [⟨none, none, none⟩] none)
      ∧ SubL (taskLines [⟨none, none, none⟩]).data
          (promptText none [⟨none, none, none⟩] none).data) :=
  ⟨(C7_buildPrompt_tasks none [] none).1 rfl,
   (C7_buildPrompt_tasks none [⟨none, none, none⟩] none).2 (by simp)⟩

/-! ### Single-step reduction facts for the JSON parser -/

theorem dl_nil : dropLeadWsL [] = [] := rfl

theorem dl_quote (X : List Char) : dropLeadWsL ('"' :: X) = '"' :: X := rfl

theorem dl_colon (X : List Char) : dropLeadWsL (':' :: X) = ':' :: X := rfl

theorem dl_comma (X : List Char) : dropLeadWsL (',' :: X) = ',' :: X := rfl

theorem dl_lbrace (X : List Char) : dropLeadWsL ('{' :: X) = '{' :: X := rfl

theorem dl_rbrace (X : List Char) : dropLeadWsL ('}' :: X) = '}' :: X := rfl

theorem dl_lbrack (X : List Char) : dropLeadWsL ('[' :: X) = '[' :: X := rfl

theorem dl_rbrack (X : List Char) : dropLeadWsL (']' :: X) = ']' :: X := rfl

theorem dl_space (X : List Char) : dropLeadWsL (' ' :: X) = dropLeadWsL X := rfl

theorem parseVal_nil : ∀ f, parseVal f [] = none := by
  intro f; cases f <;> rfl

theorem parseVal_head_comma (f : Nat) (X : List Char) : parseVal f (',' :: X) = none := by
  cases f <;> rfl

theorem parseVal_head_bt (f : Nat) (X : List Char) : parseVal f (btChar :: X) = none := by
  cases f <;> rfl

theorem parseVal_ws (c : Char) (h : isWsChar c = true) (f : Nat) (X : List Char) :
    parseVal f (c :: X) = parseVal f X := by
  cases f with
  | zero => rfl
  | succ g => simp only [parseVal]; rw [dropLead_cons_ws X h]

theorem C1Ch_spec (c : Char) (h : C1Ch c = true) :
    c ≠ '"' ∧ c ≠ '\\' ∧ ¬ c.toNat < 32 ∧ c ≠ '{' ∧ c ≠ '}' ∧ c ≠ '[' ∧ c ≠ ']' := by
  simp only [C1Ch, Bool.and_eq_true, decide_eq_true_eq] at h
  obtain ⟨⟨⟨⟨⟨⟨h32, hq⟩, hbs⟩, hlb⟩, hrb⟩, hlk⟩, hrk⟩ := h
  exact ⟨hq, hbs, by omega, hlb, hrb, hlk, hrk⟩

theorem parseStrChars_concat : ∀ (s rest : List Char), (∀ c ∈ s, C1Ch c = true) →
    parseStrChars (s ++ '"' :: rest) = some (s, rest)
  | [], _, _ => rfl
  | a :: t, rest, h => by
    obtain ⟨hq, hbs, hge, -, -, -, -⟩ := C1Ch_spec a (h a (by simp))
    rw [List.cons_append, parseStrChars.eq_def]
    split
    <;> first
      | (exfalso; simp_all; done)
      | (rename_i c r heq
         rw [List.cons.injEq] at heq
         obtain ⟨h1, h2⟩ := heq
         subst h1
         rw [← h2, if_neg hge,
           parseStrChars_concat t rest (fun c hc => h c (by simp [hc]))]
         rfl)

theorem parseStrBody_concat (v : String) (rest : List Char) (h : v.data.all C1Ch = true) :
    parseStrBody (v.data ++ '"' :: rest) = some (v, rest) := by
  unfold parseStrBody
  rw [parseStrChars_concat v.data rest (by simpa [List.all_eq_true] using h)]
  rfl

theorem val_to_objFields (f : Nat) (Z : List Char) :
    parseVal (f + 1) ('{' :: '"' :: Z) = parseObjFields f [] ('"' :: Z) := rfl

theorem objField_step (h : Nat) (acc : List (String × Json)) (key val : String)
    (sep : List Char) (hkey : key.data.all C1Ch = true) (hval : val.data.all C1Ch = true) :
    parseObjFields (h + 2) acc (fieldSeg key val sep)
      = objContinue (h + 1) (acc ++ [(key, .str val)]) sep := by
  have ek := parseStrBody_concat key (':' :: ' ' :: '"' :: (val.data ++ '"' :: sep)) hkey
  have ev := parseStrBody_concat val sep hval
  simp only [fieldSeg, show h + 2 = (h + 1) + 1 from rfl, parseObjFields, ek, dl_colon,
    parseVal, dl_space, dl_quote, ev, objContinue]

theorem dl_fieldSeg (k v : String) (sep : List Char) :
    dropLeadWsL (fieldSeg k v sep) = fieldSeg k v sep := rfl

theorem fieldSeg_append (k v : String) (sep rest : List Char) :
    fieldSeg k v sep ++ rest = fieldSeg k v (sep ++ rest) := by
  simp [fieldSeg, List.append_assoc]

theorem renderItem_append (i : ScheduleItem) (rest : List Char) :
    renderItemL i ++ rest
      = '{' :: fieldSeg "time" i.time (',' :: ' ' :: fieldSeg "activity" i.activity
          (',' :: ' ' :: fieldSeg "duration" i.duration
            (',' :: ' ' :: fieldSeg "type" i.type ('}' :: rest)))) := by
  simp [renderItemL, fieldSeg, List.append_assoc]

theorem val_to_objFields_seg (f : Nat) (k v : String) (sep : List Char) :
    parseVal (f + 1) ('{' :: fieldSeg k v sep) = parseObjFields f [] (fieldSeg k v sep) := rfl

theorem itemPlain_spec (i : ScheduleItem) (hp : itemPlain i = true) :
    i.time.data.all C1Ch = true ∧ i.activity.data.all C1Ch = true
      ∧ i.duration.data.all C1Ch = true ∧ i.type.data.all C1Ch = true := by
  simpa [itemPlain, Bool.and_eq_true, and_assoc] using hp

theorem item_some (i : ScheduleItem) (hp : itemPlain i = true) (f : Nat) (hf : 6 ≤ f)
    (rest : List Char) :
    parseVal f (renderItemL i ++ rest) = some (itemJson i, rest) := by
  obtain ⟨ht, ha, hd, hy⟩ := itemPlain_spec i hp
  rw [renderItem_append]
  obtain ⟨g, rfl⟩ : ∃ g, f = g + 1 := ⟨f - 1, by omega⟩
  rw [val_to_objFields_seg]
  obtain ⟨k1, hk1⟩ : ∃ k, g = k + 2 := ⟨g - 2, by omega⟩
  rw [hk1, objField_step k1 [] "time" i.time _ (by decide) ht]
  simp only [objContinue, dl_comma, dl_space, dl_fieldSeg, List.nil_append]
  obtain ⟨k2, hk2⟩ : ∃ k, k1 + 1 = k + 2 := ⟨k1 - 1, by omega⟩
  rw [hk2, objField_step k2 _ "activity" i.activity _ (by decide) ha]
  simp only [objContinue, dl_comma, dl_space, dl_fieldSeg]
  obtain ⟨k3, hk3⟩ : ∃ k, k2 + 1 = k + 2 := ⟨k2 - 1, by omega⟩
  rw [hk3, objField_step k3 _ "duration" i.duration _ (by decide) hd]
  simp only [objContinue, dl_comma, dl_space, dl_fieldSeg]
  obtain ⟨k4, hk4⟩ : ∃ k, k3 + 1 = k + 2 := ⟨k3 - 1, by omega⟩
  rw [hk4, objField_step k4 _ "type" i.type _ (by decide) hy]
  simp [objContinue, dl_rbrace, itemJson]

theorem item_char (i : ScheduleItem) (hp : itemPlain i = true) (f : Nat) (rest : List Char) :
    parseVal f (renderItemL i ++ rest) = none
      ∨ parseVal f (renderItemL i ++ rest) = some (itemJson i, rest) := by
  obtain ⟨ht, ha, hd, hy⟩ := itemPlain_spec i hp
  by_cases hf : 6 ≤ f
  · exact Or.inr (item_some i hp f hf rest)
  · left
    interval_cases f
    · rfl
    · rfl
    · rfl
    · rw [renderItem_append, show (3 : Nat) = 2 + 1 from rfl, val_to_objFields_seg,
        show (2 : Nat) = 0 + 2 from rfl, objField_step 0 [] "time" i.time _ (by decide) ht]
      simp only [objContinue, dl_comma, dl_space, dl_fieldSeg, List.nil_append]
      rfl
    · rw [renderItem_append, show (4 : Nat) = 3 + 1 from rfl, val_to_objFields_seg,
        show (3 : Nat) = 1 + 2 from rfl, objField_step 1 [] "time" i.time _ (by decide) ht]
      simp only [objContinue, dl_comma, dl_space, dl_fieldSeg, List.nil_append]
      rw [show (1 : Nat) + 1 = 0 + 2 from rfl,
        objField_step 0 _ "activity" i.activity _ (by decide) ha]
      simp only [objContinue, dl_comma, dl_space, dl_fieldSeg]
      rfl
    · rw [renderItem_append, show (5 : Nat) = 4 + 1 from rfl, val_to_objFields_seg,
        show (4 : Nat) = 2 + 2 from rfl, objField_step 2 [] "time" i.time _ (by decide) ht]
      simp only [objContinue, dl_comma, dl_space, dl_fieldSeg, List.nil_append]
      rw [show (2 : Nat) + 1 = 1 + 2 from rfl,
        objField_step 1 _ "activity" i.activity _ (by decide) ha]
      simp only [objContinue, dl_comma, dl_space, dl_fieldSeg]
      rw [show (1 : Nat) + 1 = 0 + 2 from rfl,
        objField_step 0 _ "duration" i.duration _ (by decide) hd]
      simp only [objContinue, dl_comma, dl_space, dl_fieldSeg]
      rfl

theorem tail_some : ∀ (js : List ScheduleItem), (∀ i ∈ js, itemPlain i = true) →
    ∀ (f : Nat) (acc : List Json) (after : List Char), js.length + 7 ≤ f →
    parseArrTail f acc (renderTailL js ++ ']' :: after)
      = some (.arr (acc ++ js.map itemJson), after)
  | [], _, f, acc, after, hf => by
    obtain ⟨g, rfl⟩ : ∃ g, f = g + 1 := ⟨f - 1, by omega⟩
    simp only [renderTailL, List.nil_append, parseArrTail, dl_rbrack, List.map_nil,
      List.append_nil]
  | i :: js, hp, f, acc, after, hf => by
    obtain ⟨g, rfl⟩ : ∃ g, f = g + 1 := ⟨f - 1, by omega⟩
    have hshape : renderTailL (i :: js) ++ ']' :: after
        = ',' :: ' ' :: (renderItemL i ++ (renderTailL js ++ ']' :: after)) := by
      simp [renderTailL, List.append_assoc]
    rw [hshape]
    simp only [parseArrTail, dl_comma]
    rw [parseVal_ws ' ' (by rfl), item_some i (hp i (by simp)) g (by simp at hf; omega)]
    show parseArrTail g (acc ++ [itemJson i]) (renderTailL js ++ ']' :: after) = _
    rw [tail_some js (fun j hj => hp j (by simp [hj])) g (acc ++ [itemJson i]) after
      (by simp at hf; omega)]
    simp

theorem tail_none : ∀ (js : List ScheduleItem), (∀ i ∈ js, itemPlain i = true) →
    ∀ (f : Nat) (acc : List Json) (e : List Char), (e = [] ∨ e = [',']) →
    parseArrTail f acc (renderTailL js ++ e) = none
  | [], _, f, acc, e, he => by
    rcases he with rfl | rfl
    · simp only [renderTailL, List.nil_append]
      cases f <;> rfl
    · simp only [renderTailL, List.nil_append]
      cases f with
      | zero => rfl
      | succ g => simp only [parseArrTail, dl_comma, parseVal_nil]
  | i :: js, hp, f, acc, e, he => by
    cases f with
    | zero => rfl
    | succ g =>
      have hshape : renderTailL (i :: js) ++ e
          = ',' :: ' ' :: (renderItemL i ++ (renderTailL js ++ e)) := by
        simp [renderTailL, List.append_assoc]
      rw [hshape]
      simp only [parseArrTail, dl_comma]
      rw [parseVal_ws ' ' (by rfl)]
      rcases item_char i (hp i (by simp)) g (renderTailL js ++ e) with hnone | hsome
      · rw [hnone]
      · rw [hsome]
        show parseArrTail g (acc ++ [itemJson i]) (renderTailL js ++ e) = none
        exact tail_none js (fun j hj => hp j (by simp [hj])) g (acc ++ [itemJson i]) e he

theorem outer_val (f : Nat) (rest : List Char) :
    parseVal (f + 3) (outerPre ++ rest)
      = (match (match dropLeadWsL rest with
                | ']' :: r1 => some (Json.arr [], r1)
                | r1 =>
                  (match parseVal f r1 with
                   | some (v, r2) => parseArrTail f [v] r2
                   | none => none)) with
         | some (av, r3) => objContinue (f + 1) [("schedule", av)] r3
         | none => none) := by
  have hshape : outerPre ++ rest
      = '{' :: '"' :: ("schedule".data ++ '"' :: ':' :: ' ' :: '[' :: rest) := by
    simp [outerPre, List.append_assoc]
  have ek := parseStrBody_concat "schedule" (':' :: ' ' :: '[' :: rest) (by decide)
  rw [hshape, show f + 3 = (f + 2) + 1 from rfl, val_to_objFields,
    show f + 2 = (f + 1) + 1 from rfl]
  rw [parseObjFields]
  simp only [ek, dl_colon, parseVal, dl_space, dl_lbrack, objContinue, List.nil_append]

/-! ### Shape facts about the rendered truncated completions -/

theorem renderItem_ends (i : ScheduleItem) :
    renderItemL i = ('{' :: fieldSeg "time" i.time (',' :: ' ' :: fieldSeg "activity" i.activity
      (',' :: ' ' :: fieldSeg "duration" i.duration
        (',' :: ' ' :: fieldSeg "type" i.type [])))) ++ ['}'] := by
  simp [renderItemL, fieldSeg, List.append_assoc]

theorem renderTail_ends : ∀ js : List ScheduleItem,
    js = [] ∨ ∃ B, renderTailL js = B ++ ['}']
  | [] => Or.inl rfl
  | j :: js => by
    right
    rcases renderTail_ends js with rfl | ⟨B, hB⟩
    · exact ⟨',' :: ' ' :: ('{' :: fieldSeg "time" j.time (',' :: ' ' ::
        fieldSeg "activity" j.activity (',' :: ' ' :: fieldSeg "duration" j.duration
          (',' :: ' ' :: fieldSeg "type" j.type [])))), by
        simp only [renderTailL, List.append_nil]
        rw [renderItem_ends j]
        simp⟩
    · exact ⟨',' :: ' ' :: (renderItemL j ++ B), by
        simp [renderTailL, hB, List.append_assoc]⟩

theorem renderItems_ends (i : ScheduleItem) (js : List ScheduleItem) :
    ∃ B, renderItemsL (i :: js) = B ++ ['}'] := by
  rcases renderTail_ends js with rfl | ⟨B, hB⟩
  · exact ⟨_, by simp only [renderItemsL, renderTailL, List.append_nil]; exact renderItem_ends i⟩
  · exact ⟨renderItemL i ++ B, by simp [renderItemsL, hB, List.append_assoc]⟩

theorem trunc_cons_shape (items : List ScheduleItem) (comma : Bool) :
    truncTextL items comma
      = '{' :: ('"' :: ("schedule".data ++ '"' :: ':' :: ' ' :: '[' ::
          (renderItemsL items ++ (if comma then [','] else [])))) := by
  simp [truncTextL, outerPre, List.append_assoc]

theorem trunc_head_nonws (items : List ScheduleItem) (comma : Bool) (c : Char)
    (h : (truncTextL items comma).head? = some c) : isWsChar c = false := by
  rw [trunc_cons_shape] at h
  simp at h
  subst h
  rfl

theorem trunc_last (items : List ScheduleItem) (comma : Bool) :
    (truncTextL items comma).getLast? = some ','
      ∨ (truncTextL items comma).getLast? = some '['
      ∨ (truncTextL items comma).getLast? = some '}' := by
  cases comma with
  | true =>
    left
    have : truncTextL items true = (outerPre ++ renderItemsL items) ++ [','] := by
      simp [truncTextL, List.append_assoc]
    rw [this, List.getLast?_concat]
  | false =>
    cases items with
    | nil => right; left; rfl
    | cons i js =>
      right; right
      obtain ⟨B, hB⟩ := renderItems_ends i js
      have : truncTextL (i :: js) false = (outerPre ++ B) ++ ['}'] := by
        simp [truncTextL, hB, List.append_assoc]
      rw [this, List.getLast?_concat]

theorem trunc_trim (items : List ScheduleItem) (comma : Bool) :
    jsTrimL (truncTextL items comma) = truncTextL items comma := by
  refine jsTrim_noop _ (trunc_head_nonws items comma) ?_
  intro c hc
  rcases trunc_last items comma with h | h | h <;> (rw [h] at hc; simp at hc; subst hc; rfl)

/-! ### The truncated completion fails the direct parse -/

theorem trunc_parse_none (items : List ScheduleItem) (comma : Bool)
    (hp : ∀ i ∈ items, itemPlain i = true) :
    jsonParseL (truncTextL items comma) = none := by
  simp only [jsonParseL, trunc_trim]
  obtain ⟨f, hF⟩ : ∃ f, 2 * (truncTextL items comma).length + 8 = f + 3 :=
    ⟨2 * (truncTextL items comma).length + 5, by omega⟩
  have hsplit : truncTextL items comma
      = outerPre ++ (renderItemsL items ++ (if comma then [','] else [])) := by
    simp [truncTextL, List.append_assoc]
  rw [hF, hsplit, outer_val]
  cases items with
  | nil =>
    cases comma with
    | true => simp [renderItemsL, dl_comma, parseVal_head_comma]
    | false => simp [renderItemsL, dl_nil, parseVal_nil]
  | cons i js =>
    have hitem := item_char i (hp i (by simp)) f
      (renderTailL js ++ (if comma then [','] else []))
    have hshape2 : renderItemsL (i :: js) ++ (if comma then [','] else [])
        = renderItemL i ++ (renderTailL js ++ (if comma then [','] else [])) := by
      simp [renderItemsL, List.append_assoc]
    have htln := tail_none js (fun j hj => hp j (by simp [hj])) f [itemJson i]
      (if comma = true then [','] else []) (by cases comma <;> simp)
    rw [hshape2, renderItem_append]
    rw [renderItem_append] at hitem
    rw [dl_lbrace]
    rcases hitem with hnone | hsome
    · simp [hnone]
    · simp [hsome, htln]

/-! ### The repaired completion parses to the expected plan -/

theorem len_renderTail : ∀ js : List ScheduleItem, js.length ≤ (renderTailL js).length
  | [] => by simp [renderTailL]
  | j :: js => by
    have ih := len_renderTail js
    simp [renderTailL]
    omega

theorem len_renderItems (items : List ScheduleItem) :
    items.length ≤ (renderItemsL items).length := by
  cases items with
  | nil => simp [renderItemsL]
  | cons i js =>
    have h1 := len_renderTail js
    have h2 : 1 ≤ (renderItemL i).length := by
      rw [renderItem_ends i]
      simp
    simp [renderItemsL]
    omega

theorem summaryAppend_shape :
    summaryAppendL ++ ['}'] = ',' :: ' ' :: fieldSeg "summary" fallbackSummary ['}'] := by
  rfl

theorem full_parse_some (items : List ScheduleItem)
    (hp : ∀ i ∈ items, itemPlain i = true) :
    jsonParseL (fullTextL items) = some (planJson items) := by
  have hhead : fullTextL items
      = '{' :: ('"' :: ("schedule".data ++ '"' :: ':' :: ' ' :: '[' ::
          (renderItemsL items ++ ']' :: (summaryAppendL ++ ['}'])))) := by
    simp [fullTextL, outerPre, List.append_assoc]
  have hlast : fullTextL items
      = (outerPre ++ renderItemsL items ++ ']' :: summaryAppendL) ++ ['}'] := by
    simp [fullTextL, List.append_assoc]
  have htrim : jsTrimL (fullTextL items) = fullTextL items := by
    refine jsTrim_noop _ ?_ ?_
    · intro c hc
      rw [hhead] at hc
      simp at hc
      subst hc
      rfl
    · intro c hc
      rw [hlast, List.getLast?_concat] at hc
      simp at hc
      subst hc
      rfl
  have hlen := len_renderItems items
  have hsplit0 : fullTextL items
      = outerPre ++ (renderItemsL items ++ ']' :: (summaryAppendL ++ ['}'])) := by
    simp [fullTextL, List.append_assoc]
  have hlen2 : items.length + 10 ≤ (fullTextL items).length := by
    have h4 : (fullTextL items).length
        = outerPre.length + (renderItemsL items ++ ']' :: (summaryAppendL ++ ['}'])).length := by
      rw [hsplit0, List.length_append]
    have h5 : outerPre.length = 14 := rfl
    have h6 : (renderItemsL items).length
        ≤ (renderItemsL items ++ ']' :: (summaryAppendL ++ ['}'])).length := by
      simp
    omega
  obtain ⟨f, hF, hfb⟩ : ∃ f, 2 * (fullTextL items).length + 8 = f + 3
      ∧ items.length + 7 ≤ f :=
    ⟨2 * (fullTextL items).length + 5, by omega, by omega⟩
  simp only [jsonParseL, htrim]
  rw [hF, hsplit0, outer_val]
  have harr : (match dropLeadWsL (renderItemsL items ++ ']' :: (summaryAppendL ++ ['}'])) with
      | ']' :: r1 => some (Json.arr [], r1)
      | r1 =>
        (match parseVal f r1 with
         | some (v, r2) => parseArrTail f [v] r2
         | none => none))
      = some (Json.arr (items.map itemJson), summaryAppendL ++ ['}']) := by
    cases items with
    | nil => simp [renderItemsL, dl_rbrack]
    | cons i js =>
      have hshape2 : renderItemsL (i :: js) ++ ']' :: (summaryAppendL ++ ['}'])
          = renderItemL i ++ (renderTailL js ++ ']' :: (summaryAppendL ++ ['}'])) := by
        simp [renderItemsL, List.append_assoc]
      have hitem := item_some i (hp i (by simp)) f (by simp at hfb; omega)
        (renderTailL js ++ ']' :: (summaryAppendL ++ ['}']))
      have htail := tail_some js (fun j hj => hp j (by simp [hj])) f [itemJson i]
        (summaryAppendL ++ ['}']) (by simp at hfb; omega)
      rw [hshape2, renderItem_append]
      rw [renderItem_append] at hitem
      simp [dl_lbrace, hitem, htail]
  rw [harr]
  rw [summaryAppend_shape]
  simp only [objContinue, dl_comma, dl_space, dl_fieldSeg]
  obtain ⟨k, hk⟩ : ∃ k, f + 1 = k + 2 := ⟨f - 1, by omega⟩
  rw [hk, objField_step k _ "summary" fallbackSummary _ (by decide) (by decide)]
  simp [objContinue, dl_rbrace, planJson]

/-! ### Bracket and brace counts of the truncated completion -/

theorem count_str_zero (s : String) (hs : s.data.all C1Ch = true) (ch : Char)
    (hch : ch = '{' ∨ ch = '}' ∨ ch = '[' ∨ ch = ']') : s.data.count ch = 0 := by
  rw [List.count_eq_zero]
  intro hmem
  have hall := List.all_eq_true.1 hs ch hmem
  obtain ⟨-, -, -, h1, h2, h3, h4⟩ := C1Ch_spec ch hall
  rcases hch with rfl | rfl | rfl | rfl <;> simp_all

theorem cnt_lb (s : String) (hs : s.data.all C1Ch = true) : s.data.count '{' = 0 :=
  count_str_zero s hs '{' (by simp)

theorem cnt_rb (s : String) (hs : s.data.all C1Ch = true) : s.data.count '}' = 0 :=
  count_str_zero s hs '}' (by simp)

theorem cnt_lk (s : String) (hs : s.data.all C1Ch = true) : s.data.count '[' = 0 :=
  count_str_zero s hs '[' (by simp)

theorem cnt_rk (s : String) (hs : s.data.all C1Ch = true) : s.data.count ']' = 0 :=
  count_str_zero s hs ']' (by simp)

set_option maxHeartbeats 1000000 in
theorem counts_item (i : ScheduleItem) (hp : itemPlain i = true) :
    ((renderItemL i).count '{' = 1 ∧ (renderItemL i).count '}' = 1)
    ∧ (renderItemL i).count '[' = 0 ∧ (renderItemL i).count ']' = 0 := by
  obtain ⟨ht, ha, hd, hy⟩ := itemPlain_spec i hp
  refine ⟨⟨?_, ?_⟩, ?_, ?_⟩ <;>
    simp [renderItemL, fieldSeg, List.count_append, List.count_cons,
      cnt_lb _ ht, cnt_lb _ ha, cnt_lb _ hd, cnt_lb _ hy,
      cnt_rb _ ht, cnt_rb _ ha, cnt_rb _ hd, cnt_rb _ hy,
      cnt_lk _ ht, cnt_lk _ ha, cnt_lk _ hd, cnt_lk _ hy,
      cnt_rk _ ht, cnt_rk _ ha, cnt_rk _ hd, cnt_rk _ hy,
      cnt_lb "time" (by decide), cnt_lb "activity" (by decide),
      cnt_lb "duration" (by decide), cnt_lb "type" (by decide),
      cnt_rb "time" (by decide), cnt_rb "activity" (by decide),
      cnt_rb "duration" (by decide), cnt_rb "type" (by decide),
      cnt_lk "time" (by decide), cnt_lk "activity" (by decide),
      cnt_lk "duration" (by decide), cnt_lk "type" (by decide),
      cnt_rk "time" (by decide), cnt_rk "activity" (by decide),
      cnt_rk "duration" (by decide), cnt_rk "type" (by decide)]

theorem counts_tail : ∀ js : List ScheduleItem, (∀ j ∈ js, itemPlain j = true) →
    ((renderTailL js).count '{' = js.length ∧ (renderTailL js).count '}' = js.length)
    ∧ (renderTailL js).count '[' = 0 ∧ (renderTailL js).count ']' = 0
  | [], _ => by simp [renderTailL]
  | j :: js, hp => by
    obtain ⟨⟨ih1, ih2⟩, ih3, ih4⟩ := counts_tail js (fun x hx => hp x (by simp [hx]))
    obtain ⟨⟨h1, h2⟩, h3, h4⟩ := counts_item j (hp j (by simp))
    refine ⟨⟨?_, ?_⟩, ?_, ?_⟩ <;>
      (simp [renderTailL, List.count_append, List.count_cons, ih1, ih2, ih3, ih4,
        h1, h2, h3, h4]; try omega)

theorem counts_items (i : ScheduleItem) (js : List ScheduleItem)
    (hp : ∀ j ∈ i :: js, itemPlain j = true) :
    ((renderItemsL (i :: js)).count '{' = js.length + 1
      ∧ (renderItemsL (i :: js)).count '}' = js.length + 1)
    ∧ (renderItemsL (i :: js)).count '[' = 0 ∧ (renderItemsL (i :: js)).count ']' = 0 := by
  obtain ⟨⟨ih1, ih2⟩, ih3, ih4⟩ := counts_tail js (fun x hx => hp x (by simp [hx]))
  obtain ⟨⟨h1, h2⟩, h3, h4⟩ := counts_item i (hp i (by simp))
  refine ⟨⟨?_, ?_⟩, ?_, ?_⟩ <;>
    simp [renderItemsL, List.count_append, ih1, ih2, ih3, ih4, h1, h2, h3, h4, Nat.add_comm]

/-! ### The truncation-repair stage on the truncated completion -/

theorem leadsWith_refl_append (n t : List Char) : leadsWith n (n ++ t) = true :=
  (leadsWith_iff n (n ++ t)).2 ⟨t, rfl⟩

theorem hasSchedPatAt_trunc (X : List Char) :
    hasSchedPatAt ('"' :: ("schedule".data ++ '"' :: ':' :: ' ' :: '[' :: X)) = true := by
  have hkp : '"' :: ("schedule".data ++ '"' :: ':' :: ' ' :: '[' :: X)
      = schedKeyPat ++ (' ' :: '[' :: X) := by
    have h0 : schedKeyPat = '"' :: ("schedule".data ++ ['"', ':']) := rfl
    simp [h0, List.append_assoc]
  unfold hasSchedPatAt
  rw [hkp, leadsWith_refl_append,
    show (11 : Nat) = schedKeyPat.length from rfl, List.drop_left]
  simp [dl_space, dl_lbrack]

theorem findSchedStart_trunc (i : ScheduleItem) (js : List ScheduleItem) :
    findSchedStart (truncTextL (i :: js) false) = some (truncTextL (i :: js) false) := by
  have hshape := trunc_cons_shape (i :: js) false
  simp only [if_neg (by simp : ¬ (false = true)), List.append_nil] at hshape
  rw [hshape]
  have hpat : hasSchedPat ('"' :: ("schedule".data ++ '"' :: ':' :: ' ' :: '['
      :: renderItemsL (i :: js))) = true := by
    unfold hasSchedPat
    rw [hasSchedPatAt_trunc]
    simp
  unfold findSchedStart
  rw [hpat]
  simp

theorem stripTrailComma_concat_rbrace (B : List Char) :
    stripTrailComma (B ++ ['}']) = B ++ ['}'] := by
  unfold stripTrailComma
  have hrev : (B ++ ['}']).reverse = '}' :: B.reverse := by simp
  rw [hrev, dl_rbrace]
  simp

/-! ### The cleaning stages leave the truncated completion intact -/

theorem trunc_clean (i : ScheduleItem) (js : List ScheduleItem) (comma : Bool) :
    cleanStage (truncTextL (i :: js) comma) = truncTextL (i :: js) false := by
  obtain ⟨B, hB⟩ := renderItems_ends i js
  have hbase_head := trunc_cons_shape (i :: js) false
  simp only [if_neg (by simp : ¬ (false = true)), List.append_nil] at hbase_head
  have hbase_last : truncTextL (i :: js) false = (outerPre ++ B) ++ ['}'] := by
    simp [truncTextL, hB, List.append_assoc]
  unfold cleanStage
  rw [trunc_trim]
  cases comma with
  | false =>
    rw [hbase_head, stripJsonFence_keep '{' _ (by decide),
      stripPlainFence_keep '{' _ (by decide), ← hbase_head]
    rw [stripTrailFence_keep _ '}' (outerPre ++ B).reverse
      (by rw [hbase_last]; simp) (by decide)]
    rw [braceExtract_id _ _ _ hbase_head hbase_last]
    exact trunc_trim _ false
  | true =>
    have hcomma : truncTextL (i :: js) true = truncTextL (i :: js) false ++ [','] := by
      simp [truncTextL, List.append_assoc]
    have hcons : truncTextL (i :: js) false ++ [',']
        = '{' :: (('"' :: ("schedule".data ++ '"' :: ':' :: ' ' :: '['
            :: renderItemsL (i :: js))) ++ [',']) := by
      rw [hbase_head]
      simp
    rw [hcomma, hcons, stripJsonFence_keep '{' _ (by decide),
      stripPlainFence_keep '{' _ (by decide), ← hcons]
    rw [stripTrailFence_keep _ ',' (truncTextL (i :: js) false).reverse (by simp) (by decide)]
    rw [braceExtract_snoc_comma _ _ _ hbase_head hbase_last]
    exact trunc_trim _ false

theorem trunc_repair (i : ScheduleItem) (js : List ScheduleItem) (comma : Bool)
    (hp : ∀ j ∈ i :: js, itemPlain j = true)
    (hsum : containsSub summLit (truncTextL (i :: js) comma) = false) :
    repairStage (truncTextL (i :: js) comma) = fullTextL (i :: js) := by
  have hbase_head := trunc_cons_shape (i :: js) false
  simp only [if_neg (by simp : ¬ (false = true)), List.append_nil] at hbase_head
  have hschedIn : containsSub schedLit (truncTextL (i :: js) false) = true := by
    apply (containsSub_iff _ _).2
    refine ⟨['{'], ':' :: ' ' :: '[' :: renderItemsL (i :: js), ?_⟩
    have h0 : schedLit = '"' :: ("schedule".data ++ ['"']) := rfl
    rw [hbase_head, h0]
    simp [List.append_assoc]
  have hsumFalse : containsSub summLit (truncTextL (i :: js) false) = false := by
    cases hx : containsSub summLit (truncTextL (i :: js) false) with
    | false => rfl
    | true =>
      exfalso
      have hs := (containsSub_iff _ _).1 hx
      have hpre : SubL (truncTextL (i :: js) false) (truncTextL (i :: js) comma) := by
        cases comma with
        | true => exact ⟨[], [','], by simp [truncTextL, List.append_assoc]⟩
        | false => exact SubL_refl _
      have hx2 := (containsSub_iff _ _).2 (SubL_trans hs hpre)
      rw [hsum] at hx2
      exact Bool.false_ne_true hx2
  have hcond : (containsSub schedLit (truncTextL (i :: js) false)
      && !containsSub summLit (truncTextL (i :: js) false)) = true := by
    rw [hschedIn, hsumFalse]; rfl
  rw [repairStage, trunc_clean i js comma, if_pos hcond]
  obtain ⟨⟨hc3, hc4⟩, hc1, hc2⟩ := counts_items i js hp
  have ho1 : List.count '[' outerPre = 1 := by rfl
  have ho2 : List.count ']' outerPre = 0 := by rfl
  have ho3 : List.count '{' outerPre = 1 := by rfl
  have ho4 : List.count '}' outerPre = 0 := by rfl
  have hc1T : (truncTextL (i :: js) false).count '[' = 1 := by
    simp [truncTextL, List.count_append, hc1, ho1]
  have hc2T : (truncTextL (i :: js) false).count ']' = 0 := by
    simp [truncTextL, List.count_append, hc2, ho2]
  have hc3T : (truncTextL (i :: js) false).count '{' = js.length + 2 := by
    simp [truncTextL, List.count_append, hc3, ho3]
    omega
  have hc4T : (truncTextL (i :: js) false).count '}' = js.length + 1 := by
    simp [truncTextL, List.count_append, hc4, ho4]
  obtain ⟨B, hB⟩ := renderItems_ends i js
  have hlastB : truncTextL (i :: js) false = (outerPre ++ B) ++ ['}'] := by
    simp [truncTextL, hB, List.append_assoc]
  have hstc : stripTrailComma (truncTextL (i :: js) false) = truncTextL (i :: js) false := by
    rw [hlastB, stripTrailComma_concat_rbrace]
  have hsum2 : containsSub summLit (truncTextL (i :: js) false ++ [']']) = false := by
    cases hx : containsSub summLit (truncTextL (i :: js) false ++ [']']) with
    | false => rfl
    | true =>
      exfalso
      have hs := (containsSub_iff _ _).1 hx
      have hs2 := subL_snoc summLit _ ']' (by decide) (by decide) hs
      have hx2 := (containsSub_iff _ _).2 hs2
      rw [hsumFalse] at hx2
      exact Bool.false_ne_true hx2
  have harith : js.length + 2 - (js.length + 1) = 1 := by omega
  simp only [repairTrunc, findSchedStart_trunc i js, hc1T, hc2T, hc3T, hc4T, hstc,
    List.replicate, Nat.sub_zero, hsum2, Bool.false_eq_true, if_false, harith]
  simp [fullTextL, truncTextL, List.append_assoc]

/-! ### Claim C1: the truncation-repair stage -/

/-- C1: for every completion truncated after some number of complete
schedule items (optionally with a trailing comma), carrying the
`"schedule"` key and no `"summary"` key, `parseAIResponse` repairs it
(strip trailing comma, close the bracket, append the fallback summary
field, close the brace) into a parseable object whose summary is the
fixed text `Daily schedule generated based on your preferences and
tasks.` and whose schedule array length equals the number of complete
items before the truncation point. -/
theorem C1_truncation_repair (items : List ScheduleItem) (comma : Bool)
    (hp : ∀ j ∈ items, itemPlain j = true)
    (hsum : containsSub summLit (truncTextL items comma) = false) :
    parseAIResponse ⟨truncTextL items comma⟩ = .ok (planJson items)
    ∧ (planJson items).getF "summary" = some (.str fallbackSummary)
    ∧ ∃ arr, (planJson items).getF "schedule" = some (.arr arr)
        ∧ arr.length = items.length := by
  refine ⟨?_, rfl, items.map itemJson, rfl, by simp⟩
  cases items with
  | nil =>
    cases comma with
    | false => rfl
    | true => rfl
  | cons i js =>
    have hdirect : jsonParse ⟨truncTextL (i :: js) comma⟩ = none := by
      simpa [jsonParse] using trunc_parse_none (i :: js) comma hp
    have hdata : (⟨truncTextL (i :: js) comma⟩ : String).data
        = truncTextL (i :: js) comma := rfl
    have hrepair := trunc_repair i js comma hp hsum
    have hfull := full_parse_some (i :: js) hp
    simp [parseAIResponse, parseAIResponseO, hdirect, hdata, hrepair, hfull]

/-- Witness for C1: a completion truncated after two complete items and a
trailing comma. -/
theorem C1_witness :
    (∀ j ∈ c1Items, itemPlain j = true)
    ∧ containsSub summLit (truncTextL c1Items true) = false
    ∧ (parseAIResponse ⟨truncTextL c1Items true⟩ = .ok (planJson c1Items)
       ∧ (planJson c1Items).getF "summary" = some (.str fallbackSummary)
       ∧ ∃ arr, (planJson c1Items).getF "schedule" = some (.arr arr)
           ∧ arr.length = c1Items.length) :=
  ⟨by decide, rfl, C1_truncation_repair c1Items true (by decide) rfl⟩

/-! ### Claim C5: fence wrapping -/

theorem fenceWrap_true_data (t : String) :
    (fenceWrap true t).data
      = btChar :: btChar :: btChar :: 'j' :: 's' :: 'o' :: 'n' :: '\n'
          :: (t.data ++ '\n' :: btChar :: btChar :: btChar :: []) := rfl

theorem fenceWrap_false_data (t : String) :
    (fenceWrap false t).data
      = btChar :: btChar :: btChar :: '\n'
          :: (t.data ++ '\n' :: btChar :: btChar :: btChar :: []) := rfl

theorem jsTrim_bt_wrap (X : List Char) :
    jsTrimL (btChar :: (X ++ [btChar])) = btChar :: (X ++ [btChar]) := by
  apply jsTrim_noop
  · intro c hc
    simp at hc
    subst hc
    rfl
  · intro c hc
    rw [show btChar :: (X ++ [btChar]) = (btChar :: X) ++ [btChar] by simp,
      List.getLast?_concat] at hc
    simp at hc
    subst hc
    rfl

theorem jsTrim_fenceWrap (tag : Bool) (t : String) :
    jsTrimL (fenceWrap tag t).data = (fenceWrap tag t).data := by
  cases tag with
  | true =>
    rw [fenceWrap_true_data]
    have e : btChar :: btChar :: btChar :: 'j' :: 's' :: 'o' :: 'n' :: '\n'
          :: (t.data ++ '\n' :: btChar :: btChar :: btChar :: [])
        = btChar :: ((btChar :: btChar :: 'j' :: 's' :: 'o' :: 'n' :: '\n'
            :: (t.data ++ ['\n', btChar, btChar])) ++ [btChar]) := by
      simp
    rw [e]
    exact jsTrim_bt_wrap _
  | false =>
    rw [fenceWrap_false_data]
    have e : btChar :: btChar :: btChar :: '\n'
          :: (t.data ++ '\n' :: btChar :: btChar :: btChar :: [])
        = btChar :: ((btChar :: btChar :: '\n'
            :: (t.data ++ ['\n', btChar, btChar])) ++ [btChar]) := by
      simp
    rw [e]
    exact jsTrim_bt_wrap _

theorem cleanStage_fenceWrap (tag : Bool) (t : String) (r B : List Char)
    (hhead : jsTrimL t.data = '{' :: r) (hlast : jsTrimL t.data = B ++ ['}']) :
    cleanStage (fenceWrap tag t).data = jsTrimL t.data := by
  obtain ⟨u, hdl⟩ : ∃ u, dropLeadWsL t.data = '{' :: u := by
    refine ⟨r ++ ((dropLeadWsL t.data).reverse.takeWhile isWsChar).reverse, ?_⟩
    have hpre := dropTrail_prefix (dropLeadWsL t.data)
    have hjt : dropTrailWsL (dropLeadWsL t.data) = jsTrimL t.data := rfl
    rw [hjt, hhead] at hpre
    exact hpre.trans (List.cons_append _ _ _)
  have hne : dropLeadWsL t.data ≠ [] := by rw [hdl]; exact List.cons_ne_nil _ _
  have hs1 : dropLeadWsL ('\n' :: (t.data ++ '\n' :: btChar :: btChar :: btChar :: []))
      = dropLeadWsL t.data ++ '\n' :: btChar :: btChar :: btChar :: [] := by
    rw [dropLead_cons_ws _ (by decide), dropLead_append_of_ne_nil _ _ hne]
  have htrail : stripTrailFence (dropLeadWsL t.data ++ '\n' :: btChar :: btChar :: btChar :: [])
      = jsTrimL t.data := by
    rw [stripTrailFence_ticks _ ('\n' :: (dropLeadWsL t.data).reverse) (by simp),
      dropLead_cons_ws _ (by decide)]
    rfl
  have hplain : stripPlainFence (dropLeadWsL t.data ++ '\n' :: btChar :: btChar :: btChar :: [])
      = dropLeadWsL t.data ++ '\n' :: btChar :: btChar :: btChar :: [] := by
    rw [hdl, List.cons_append]
    exact stripPlainFence_keep '{' _ (by decide)
  cases tag with
  | true =>
    simp only [cleanStage]
    rw [jsTrim_fenceWrap, fenceWrap_true_data, stripJsonFence_json, hs1, hplain, htrail,
      braceExtract_id _ _ _ hhead hlast, jsTrim_idem]
  | false =>
    simp only [cleanStage]
    rw [jsTrim_fenceWrap, fenceWrap_false_data, stripJsonFence_ticks_nl,
      stripPlainFence_ticks, hs1, htrail,
      braceExtract_id _ _ _ hhead hlast, jsTrim_idem]

/-- C5 counterexample: the schema-valid object text `c5Escaped` (its
`summary` key spelled with the JSON escape `\u0061`) parses directly to
`c5Value`, but its fence-wrapped form is mangled by the truncation-repair
stage (the literal `"summary"` test fails) and comes back with the
fallback summary instead of `ok`. -/
theorem C5_counterexample :
    jsonParse c5Escaped = some c5Value
    ∧ matchesPlanSchema c5Value = true
    ∧ parseAIResponse c5Escaped = .ok c5Value
    ∧ parseAIResponse (fenceWrap true c5Escaped)
        = .ok (.obj [("schedule", .arr []), ("summary", .str fallbackSummary)])
    ∧ c5Value.getF "summary" = some (.str "ok")
    ∧ (Json.obj [("schedule", .arr []), ("summary", .str fallbackSummary)]).getF "summary"
        = some (.str fallbackSummary)
    ∧ ("ok" : String) ≠ fallbackSummary :=
  ⟨rfl, rfl, rfl, rfl, rfl, rfl, by decide⟩

/-- C5: for every completion text that is valid JSON matching the plan
schema, trims to a brace-delimited object text, and contains the literal
`"summary"` substring, `parseAIResponse` on the text wrapped in markdown
code fences (tagged ```json or plain ```) and on the unwrapped text both
return the directly parsed value. -/
theorem C5_fence_wrap_equivalence (tag : Bool) (t : String) (v : Json) (r B : List Char)
    (hv : jsonParse t = some v)
    (_hschema : matchesPlanSchema v = true)
    (hsumm : containsSub summLit t.data = true)
    (hhead : jsTrimL t.data = '{' :: r)
    (hlast : jsTrimL t.data = B ++ ['}']) :
    parseAIResponse (fenceWrap tag t) = .ok v ∧ parseAIResponse t = .ok v := by
  have hclean := cleanStage_fenceWrap tag t r B hhead hlast
  have hsummClean : containsSub summLit (cleanStage (fenceWrap tag t).data) = true := by
    rw [hclean]
    exact (containsSub_iff _ _).2
      (subL_jsTrim _ _ (by decide) (by decide) ((containsSub_iff _ _).1 hsumm))
  have hsummTrim : containsSub summLit (jsTrimL t.data) = true := by
    rw [← hclean]
    exact hsummClean
  have hrep : repairStage (fenceWrap tag t).data = jsTrimL t.data := by
    simp [repairStage, hclean, hsummTrim]
  have hv' : jsonParseL t.data = some v := hv
  have hparse2 : jsonParseL (jsTrimL t.data) = some v := by
    simpa [jsonParseL, jsTrim_idem] using hv'
  have hfstuck : jsonParse (fenceWrap tag t) = none := by
    have hJ : jsonParse (fenceWrap tag t) = jsonParseL (fenceWrap tag t).data := rfl
    rw [hJ]
    simp only [jsonParseL, jsTrim_fenceWrap]
    cases tag with
    | true => rw [fenceWrap_true_data, parseVal_head_bt]
    | false => rw [fenceWrap_false_data, parseVal_head_bt]
  refine ⟨?_, ?_⟩
  · simp [parseAIResponse, parseAIResponseO, hfstuck, hrep, hparse2]
  · simp [parseAIResponse, parseAIResponseO, hv]

/-- Witness for the amended C5 at `c5Input`, fenced with the json tag. -/
theorem C5_witness :
    jsonParse c5Input = some c5Value
    ∧ matchesPlanSchema c5Value = true
    ∧ containsSub summLit c5Input.data = true
    ∧ jsTrimL c5Input.data = '{' :: "\"schedule\": [], \"summary\": \"ok\"\x7d".data
    ∧ jsTrimL c5Input.data = "\x7b\"schedule\": [], \"summary\": \"ok\"".data ++ ['\x7d']
    ∧ (parseAIResponse (fenceWrap true c5Input) = .ok c5Value
       ∧ parseAIResponse c5Input = .ok c5Value) :=
  ⟨rfl, rfl, rfl, rfl, rfl,
   C5_fence_wrap_equivalence true c5Input c5Value
     ("\"schedule\": [], \"summary\": \"ok\"\x7d".data)
     ("\x7b\"schedule\": [], \"summary\": \"ok\"".data) rfl rfl rfl rfl rfl⟩

end PlanMyDay
